import Mathlib

set_option maxHeartbeats 1000000
set_option maxRecDepth 100000

/-!
Shallow embedding of the heap-page pruning engine with HOT and partial-HOT
(PHOT) chain maintenance, translated from
`src/backend/access/heap/pruneheap.c` and the line-pointer definitions of
`src/include/storage/itemid.h`.

Modelling conventions:
* Transaction ids, offset numbers and attribute numbers are `Nat`.
* A `Bitmapset` is a `Finset Nat` (PostgreSQL bitmapsets hold non-negative
  members; the empty set plays the role of a NULL `Bitmapset *`).
* `FirstLowInvalidHeapAttributeNumber` is the external constant `-7` from
  `sysattr.h` (not part of the sources here).  The bitmapset member for
  attribute number `a` is `a - FirstLowInvalidHeapAttributeNumber = a + 7`;
  we keep that shift as the literal `7` below.
* The visibility oracle (`heap_prune_satisfies_vacuum`, which delegates to
  the external `HeapTupleSatisfiesVacuumHorizon`) is a parameter returning
  the numeric `HTSV_Result` code of the external enum
  (0 DEAD, 1 LIVE, 2 RECENTLY_DEAD, 3 INSERT_IN_PROGRESS,
  4 DELETE_IN_PROGRESS); any other value hits the `elog(ERROR)` default arm
  of the switch in `heap_prune_chain`.
* The external column comparator `HeapDetermineModifiedColumns` is a
  parameter `diffCols`; per its contract its result is restricted to the
  interesting-attribute set at the call site.
* The unbounded `for (;;)` chain walk is given explicit fuel; running out of
  fuel corresponds to the C loop still running (it has no bound check).
-/

/-- Decidable equality for `Except`, used to evaluate prune results on
concrete pages. -/
instance exceptDecEq {A B : Type} [DecidableEq A] [DecidableEq B] :
    DecidableEq (Except A B)
  | .ok a, .ok b =>
    match decEq a b with
    | .isTrue h => .isTrue (h ▸ rfl)
    | .isFalse h => .isFalse (fun hc => h (Except.ok.inj hc))
  | .error a, .error b =>
    match decEq a b with
    | .isTrue h => .isTrue (h ▸ rfl)
    | .isFalse h => .isFalse (fun hc => h (Except.error.inj hc))
  | .ok _, .error _ => .isFalse (fun hc => Except.noConfusion hc)
  | .error _, .ok _ => .isFalse (fun hc => Except.noConfusion hc)

/-- Value of the external constant `MaxHeapTuplesPerPage` for the standard
8192-byte page build (from `htup_details.h`, which is not among the sources;
the fixed-size working arrays of `PruneState` and `heap_prune_chain` are
declared with it). -/
def MaxHeapTuplesPerPage : Nat := 291

/-- Fields of a heap tuple header that `heap_prune_chain` inspects:
creator/updater transaction ids, the HOT/PHOT infomask flags, and the
successor line-pointer offset stored in `t_ctid`. -/
structure HeapTupleHeaderData where
  xmin : Nat
  xmax : Nat
  ctid : Nat
  heapOnly : Bool
  partialHeapOnly : Bool
  hotUpdated : Bool
  partialHotUpdated : Bool
deriving DecidableEq, Repr

/-- Payload attached to a redirect line pointer (`RedirectHeaderData` plus
the data bytes following it): the 4-bit type tag `rlp_type` and the data
bytes after the header (the stored length `rlp_len` is the byte count of
header plus data). -/
structure RedirectData where
  rtype : Nat
  bytes : List Nat
deriving DecidableEq, Repr

/-- The `RLP_PHOT` redirect-data type tag from `itemid.h`. -/
def RLP_PHOT : Nat := 0

/-- A line pointer (`ItemIdData`), as a tagged variant of its `lp_flags`
states.  `redirect target rd` covers both a plain redirect (`rd = none`,
`lp_len = 0`) and a redirect with data (`rd = some d`, where `lp_len` points
at the stored `RedirectHeaderData`). -/
inductive ItemIdState where
  | unused : ItemIdState
  | normal : HeapTupleHeaderData → ItemIdState
  | redirect : Nat → Option RedirectData → ItemIdState
  | dead : ItemIdState
deriving DecidableEq, Repr

/-- ItemIdIsUsed: every state except `LP_UNUSED`. -/
def ItemIdIsUsed : ItemIdState → Bool
  | .unused => false
  | _ => true

/-- ItemIdIsNormal. -/
def ItemIdIsNormal : ItemIdState → Bool
  | .normal _ => true
  | _ => false

/-- ItemIdIsRedirected. -/
def ItemIdIsRedirected : ItemIdState → Bool
  | .redirect _ _ => true
  | _ => false

/-- ItemIdIsDead. -/
def ItemIdIsDead : ItemIdState → Bool
  | .dead => true
  | _ => false

/-- ItemIdIsPartialHotRedirected: a redirect with `lp_len ≠ 0` whose stored
header has type `RLP_PHOT`. -/
def ItemIdIsPartialHotRedirected : ItemIdState → Bool
  | .redirect _ (some rd) => rd.rtype = RLP_PHOT
  | _ => false

/-- A heap page: the line-pointer array (offset number `o` lives at list
index `o - 1`; `PageGetMaxOffsetNumber` is the length). -/
structure Page where
  items : List ItemIdState
deriving DecidableEq, Repr

/-- PageGetMaxOffsetNumber. -/
def Page.maxoff (p : Page) : Nat := p.items.length

/-- PageGetItemId (out-of-range offsets yield an unused item; the C macro
would read out of bounds there, and all in-spec accesses are range-checked
by the callers). -/
def Page.getItem (p : Page) (off : Nat) : ItemIdState :=
  p.items.getD (off - 1) .unused

/-- Replace the line pointer at an offset. -/
def Page.setItem (p : Page) (off : Nat) (st : ItemIdState) : Page :=
  ⟨p.items.set (off - 1) st⟩

/-- Encoding `StoreModifiedColumnsBitmap` produces: one byte from its eight
bit values (bit k of the result is `b k`, mirroring
`bits[i / 8] |= 1 << (i % 8)` on a zero-initialized buffer). -/
def mkByte (b0 b1 b2 b3 b4 b5 b6 b7 : Bool) : Nat :=
  (cond b0 1 0) + 2 * (cond b1 1 0) + 4 * (cond b2 1 0) + 8 * (cond b3 1 0) +
    16 * (cond b4 1 0) + 32 * (cond b5 1 0) + 64 * (cond b6 1 0) +
    128 * (cond b7 1 0)

/-- StoreModifiedColumnsBitmap: serialize a modified-columns bitmapset into
`(natts + 7) / 8` data bytes (the buffer is allocated with exactly that many
bytes after the `RedirectHeaderData`).  A member `m` of the bitmapset is
attribute `m + FirstLowInvalidHeapAttributeNumber = m - 7` and is written at
bit position `m - 7`; bit `p` of the buffer is therefore set iff `p + 7` is
a member.  Bit positions at or beyond `8 * ((natts + 7) / 8)` fall outside
the allocated buffer in the C code (an out-of-bounds write, see
`StoreModifiedColumnsBitmapOverflows`); the buffer itself never receives
them. -/
def StoreModifiedColumnsBitmap (data : Finset Nat) (natts : Nat) : List Nat :=
  (List.range ((natts + 7) / 8)).map (fun j =>
    mkByte (8 * j + 7 ∈ data) (8 * j + 1 + 7 ∈ data) (8 * j + 2 + 7 ∈ data)
      (8 * j + 3 + 7 ∈ data) (8 * j + 4 + 7 ∈ data) (8 * j + 5 + 7 ∈ data)
      (8 * j + 6 + 7 ∈ data) (8 * j + 7 + 7 ∈ data))

/-- Detect the out-of-bounds write of `StoreModifiedColumnsBitmap`: a member
whose bit position `m - 7` does not fit in the `(natts + 7) / 8` allocated
data bytes. -/
def StoreModifiedColumnsBitmapOverflows (data : Finset Nat) (natts : Nat) : Bool :=
  decide (∃ m ∈ data, 8 * ((natts + 7) / 8) + 7 ≤ m)

/-- The bitmap-read branch of `GetModifiedColumnsBitmap`: scan all
`len * 8` stored bits and add member `i - FirstLowInvalidHeapAttributeNumber
= i + 7` for every set bit `i`. -/
def decodeRedirectBitmap (bytes : List Nat) : Finset Nat :=
  ((Finset.range (bytes.length * 8)).filter
    (fun i => (bytes.getD (i / 8) 0).testBit (i % 8))).image (· + 7)

/-- Working data for `heap_page_prune` and subroutines (`PruneState`): the
new prune hint, the accumulated transition arrays and the per-pass marked
set.  Array entries are kept in recording order; a redirect-with-data entry
carries the bytes produced by `StoreModifiedColumnsBitmap`. -/
structure PruneState where
  new_prune_xid : Option Nat
  redirected : List (Nat × Nat)
  redirectedData : List (Nat × Nat × List Nat)
  nowdead : List Nat
  nowunused : List Nat
  marked : Finset Nat
deriving DecidableEq

/-- The initial prune state of one `heap_page_prune` pass. -/
def PruneState.init : PruneState := ⟨none, [], [], [], [], ∅⟩

/-- heap_prune_record_prunable: keep the lowest soon-prunable xid. -/
def heap_prune_record_prunable (ps : PruneState) (xid : Nat) : PruneState :=
  match ps.new_prune_xid with
  | none => { ps with new_prune_xid := some xid }
  | some x => if xid < x then { ps with new_prune_xid := some xid } else ps

/-- heap_prune_record_redirect: append a `(from, to)` pair and mark both
offsets. -/
def heap_prune_record_redirect (ps : PruneState) (offnum rdoffnum : Nat) :
    PruneState :=
  { ps with
    redirected := ps.redirected ++ [(offnum, rdoffnum)]
    marked := insert rdoffnum (insert offnum ps.marked) }

/-- heap_prune_record_redirect_with_data: append a `(from, to, bytes)`
triple, serializing the bitmap, and mark both offsets. -/
def heap_prune_record_redirect_with_data (ps : PruneState)
    (offnum rdoffnum natts : Nat) (data : Finset Nat) : PruneState :=
  { ps with
    redirectedData :=
      ps.redirectedData ++ [(offnum, rdoffnum, StoreModifiedColumnsBitmap data natts)]
    marked := insert rdoffnum (insert offnum ps.marked) }

/-- heap_prune_record_dead. -/
def heap_prune_record_dead (ps : PruneState) (offnum : Nat) : PruneState :=
  { ps with
    nowdead := ps.nowdead ++ [offnum]
    marked := insert offnum ps.marked }

/-- heap_prune_record_unused. -/
def heap_prune_record_unused (ps : PruneState) (offnum : Nat) : PruneState :=
  { ps with
    nowunused := ps.nowunused ++ [offnum]
    marked := insert offnum ps.marked }

/-- External inputs of one pruning pass: the visibility oracle (the
`HTSV_Result` code of `heap_prune_satisfies_vacuum` for a tuple, fixed for
the pass since the horizon is computed once), the external column
comparator `HeapDetermineModifiedColumns` keyed by the two line-pointer
offsets compared, the relation's attribute count, and the value the
out-of-bounds `chainitems[nchain - 2]` read yields when `nchain < 2` (the C
code reads past the start of the stack array there; the result is
unspecified, so it is a parameter). -/
structure PruneCtx where
  vis : HeapTupleHeaderData → Nat
  diffCols : Nat → Nat → Finset Nat
  natts : Nat
  oobPhot : Bool

/-- GetModifiedColumnsBitmap: with an empty (NULL) interesting set the
result is empty; for a normal old line pointer delegate to the external
comparator restricted to the interesting set; for a redirected old line
pointer decode the stored bitmap and intersect with the interesting set;
a heap-only new tuple after a non-normal old line pointer yields NULL.
States that would fail the function's assertions (a non-normal,
non-payload-bearing old line pointer reached with `newlp_is_phot`) read
unspecified page bytes in C and are modelled as the empty set. -/
def GetModifiedColumnsBitmap (ctx : PruneCtx) (page : Page)
    (oldoff newoff : Nat) (newlp_is_phot : Bool) (interesting : Finset Nat) :
    Finset Nat :=
  if interesting = ∅ then ∅
  else if !newlp_is_phot && !(ItemIdIsNormal (page.getItem oldoff)) then ∅
  else match page.getItem oldoff with
    | .normal _ => ctx.diffCols oldoff newoff ∩ interesting
    | .redirect _ (some rd) => decodeRedirectBitmap rd.bytes ∩ interesting
    | _ => ∅

/-- Status of the chain-walk loop of `heap_prune_chain`: a normal break, the
`elog(ERROR, "unexpected HeapTupleSatisfiesVacuum result")` arm, or fuel
exhaustion (the C loop has no bound and would still be running / overrunning
its arrays). -/
inductive WalkStatus where
  | ok : WalkStatus
  | oracleErr : WalkStatus
  | noFuel : WalkStatus
deriving DecidableEq, Repr

/-- Result of the chain-walk loop: the collected `(chainitems, phot_items)`
pairs, `latestdead`, the prune state updated by
`heap_prune_record_prunable`, and how the loop ended. -/
structure WalkRes where
  chain : List (Nat × Bool)
  latestdead : Option Nat
  ps : PruneState
  status : WalkStatus
deriving DecidableEq

/-- The `for (;;)` chain walk of `heap_prune_chain` (lines 597-751): follow
the chain from `offnum`, collecting members and their PHOT flags, stopping
at out-of-range, marked, unused or dead line pointers, at an
xmin/prior-xmax mismatch, at the first member that is not classified DEAD,
or at a member with neither HOT nor PHOT updated flags. -/
def walkLoop (ctx : PruneCtx) (page : Page) (rootoff : Nat) :
    Nat → Nat → Option Nat → List (Nat × Bool) → Option Nat → PruneState →
    WalkRes
  | 0, _, _, chain, ld, ps => ⟨chain, ld, ps, .noFuel⟩
  | fuel + 1, offnum, priorXmax, chain, ld, ps =>
    if offnum < 1 ∨ page.maxoff < offnum then ⟨chain, ld, ps, .ok⟩
    else if offnum ∈ ps.marked then ⟨chain, ld, ps, .ok⟩
    else match page.getItem offnum with
      | .unused => ⟨chain, ld, ps, .ok⟩
      | .redirect target _ =>
        let phot :=
          if offnum = rootoff then
            ItemIdIsPartialHotRedirected (page.getItem offnum)
          else if 2 ≤ chain.length then
            ItemIdIsPartialHotRedirected
              (page.getItem (chain.getD (chain.length - 2) (0, false)).1)
          else ctx.oobPhot
        walkLoop ctx page rootoff fuel target priorXmax
          (chain ++ [(offnum, phot)]) ld ps
      | .dead => ⟨chain, ld, ps, .ok⟩
      | .normal htup =>
        if priorXmax.isSome ∧ priorXmax ≠ some htup.xmin then ⟨chain, ld, ps, .ok⟩
        else
          let phot := htup.partialHeapOnly ||
            (!htup.heapOnly && htup.partialHotUpdated)
          let chain1 := chain ++ [(offnum, phot)]
          let v := ctx.vis htup
          if v = 0 then
            -- HEAPTUPLE_DEAD: remember the last DEAD tuple seen
            if !htup.hotUpdated && !htup.partialHotUpdated then
              ⟨chain1, some offnum, ps, .ok⟩
            else
              walkLoop ctx page rootoff fuel htup.ctid (some htup.xmax)
                chain1 (some offnum) ps
          else if v = 2 ∨ v = 4 then
            -- RECENTLY_DEAD / DELETE_IN_PROGRESS: record prunable, then
            -- the not-DEAD break
            ⟨chain1, ld, heap_prune_record_prunable ps htup.xmax, .ok⟩
          else if v = 1 ∨ v = 3 then
            -- LIVE / INSERT_IN_PROGRESS: the not-DEAD break
            ⟨chain1, ld, ps, .ok⟩
          else ⟨chain1, ld, ps, .oracleErr⟩

/-- Mutable state of the dead-tail collapse loop of `heap_prune_chain`
(lines 760-929): prune state, deleted count, `keyitems` in push order,
`intermediate`, `modified_attrs`, the lazily initialized
`interesting_attrs` (empty = still NULL), `has_phot` and `chain_dead`. -/
structure CollapseSt where
  ps : PruneState
  ndeleted : Nat
  keyitems : List Nat
  intermediate : Finset Nat
  modified_attrs : Finset Nat
  interesting : Finset Nat
  has_phot : Bool
  chain_dead : Bool

/-- One iteration (index `i`, with `1 ≤ i ≤ nchain - 2`) of the interior
loop of `heap_prune_chain` (lines 805-929). -/
def collapseStep (ctx : PruneCtx) (page : Page) (chain : List (Nat × Bool))
    (lastoff : Nat) (i : Nat) (st : CollapseSt) : CollapseSt :=
  let offi := (chain.getD i (0, false)).1
  let photi := (chain.getD i (0, false)).2
  let nd := st.ndeleted + (if ItemIdIsNormal (page.getItem offi) then 1 else 0)
  if st.chain_dead || (!st.has_phot && !photi) then
    { st with
      ndeleted := nd
      ps := if photi then heap_prune_record_dead st.ps offi
            else heap_prune_record_unused st.ps offi }
  else
    let interesting :=
      if st.interesting = ∅ then Finset.Icc 8 (ctx.natts + 7) else st.interesting
    let modified := GetModifiedColumnsBitmap ctx page
      (chain.getD (i - 1) (0, false)).1 offi photi interesting
    if modified = ∅ then
      { st with
        ndeleted := nd
        interesting := interesting
        ps := heap_prune_record_unused st.ps offi }
    else if photi && !st.has_phot then
      { st with
        ndeleted := nd
        interesting := interesting
        ps := heap_prune_record_redirect st.ps offi lastoff
        keyitems := st.keyitems ++ [offi]
        intermediate := modified
        modified_attrs := modified
        has_phot := true }
    else if !photi && st.has_phot then
      { st with
        ndeleted := nd
        interesting := interesting
        ps := heap_prune_record_unused st.ps offi }
    else if modified ⊆ st.modified_attrs then
      { st with
        ndeleted := nd
        interesting := interesting
        ps := heap_prune_record_dead st.ps offi
        intermediate := st.intermediate ∪ modified }
    else
      let ma := st.modified_attrs ∪ modified
      { st with
        ndeleted := nd
        interesting := interesting
        ps := heap_prune_record_redirect_with_data st.ps offi
          (st.keyitems.getLastD 0) ctx.natts st.intermediate
        keyitems := st.keyitems ++ [offi]
        intermediate := modified
        modified_attrs := ma
        chain_dead := ma = interesting }

/-- The interior loop `for (i = nchain - 2; i > 0; i--)`: process indices
`i, i - 1, ..., 1`. -/
def collapseLoop (ctx : PruneCtx) (page : Page) (chain : List (Nat × Bool))
    (lastoff : Nat) : Nat → CollapseSt → CollapseSt
  | 0, st => st
  | i + 1, st =>
    collapseLoop ctx page chain lastoff i
      (collapseStep ctx page chain lastoff (i + 1) st)

/-- Evaluation of the last chain item (lines 775-798): the whole-chain-dead
case records the tail Dead or Unused; a live PHOT tail of a longer chain
seeds `keyitems` (with `interesting_attrs` still NULL at this point, so the
computed seed bitmap is NULL). -/
def collapseInit (ctx : PruneCtx) (page : Page) (chain : List (Nat × Bool))
    (lastoff ldoff : Nat) (ps : PruneState) : CollapseSt :=
  let nchain := chain.length
  let tailphot := (chain.getD (nchain - 1) (0, false)).2
  if lastoff = ldoff then
    { ps := if (nchain - 1 == 0) || tailphot then
              heap_prune_record_dead ps lastoff
            else heap_prune_record_unused ps lastoff
      ndeleted := if ItemIdIsNormal (page.getItem lastoff) then 1 else 0
      keyitems := []
      intermediate := ∅
      modified_attrs := ∅
      interesting := ∅
      has_phot := tailphot
      chain_dead := true }
  else if tailphot && decide (1 < nchain) then
    let inter := GetModifiedColumnsBitmap ctx page
      (chain.getD (nchain - 2) (0, false)).1 lastoff true ∅
    { ps := ps
      ndeleted := 0
      keyitems := [lastoff]
      intermediate := inter
      modified_attrs := inter
      interesting := ∅
      has_phot := tailphot
      chain_dead := false }
  else
    { ps := ps
      ndeleted := 0
      keyitems := []
      intermediate := ∅
      modified_attrs := ∅
      interesting := ∅
      has_phot := tailphot
      chain_dead := false }

/-- Handling of the root item after the interior loop (lines 937-950): only
chains with more than one item touch the root; it becomes Dead when
`chain_dead` is (still, or again) set, a redirect-with-data toward the most
recent key item when keys exist, and a plain redirect to the tail
otherwise. -/
def collapseFinish (ctx : PruneCtx) (page : Page) (rootoff lastoff : Nat)
    (nchain : Nat) (st : CollapseSt) : Nat × PruneState :=
  if 1 < nchain then
    let nd := st.ndeleted +
      (if ItemIdIsNormal (page.getItem rootoff) then 1 else 0)
    if st.chain_dead then (nd, heap_prune_record_dead st.ps rootoff)
    else if st.keyitems ≠ [] then
      (nd, heap_prune_record_redirect_with_data st.ps rootoff
        (st.keyitems.getLastD 0) ctx.natts st.intermediate)
    else (nd, heap_prune_record_redirect st.ps rootoff lastoff)
  else (st.ndeleted, st.ps)

/-- The dead-tail collapse of `heap_prune_chain` (the
`if (OffsetNumberIsValid(latestdead))` block, lines 760-956): evaluate the
last chain item, run the interior loop, then handle the root item.  Returns
the deleted count and the updated prune state. -/
def collapseChain (ctx : PruneCtx) (page : Page) (rootoff : Nat)
    (chain : List (Nat × Bool)) (ldoff : Nat) (ps : PruneState) :
    Nat × PruneState :=
  let nchain := chain.length
  let lastoff := (chain.getD (nchain - 1) (0, false)).1
  collapseFinish ctx page rootoff lastoff nchain
    (collapseLoop ctx page chain lastoff (nchain - 2)
      (collapseInit ctx page chain lastoff ldoff ps))

/-- Abort conditions of one pass: the `elog(ERROR)` of the visibility
switch, or a chain walk that never terminates (fuel exhaustion; the C loop
would keep running). -/
inductive PruneAbort where
  | oracleErr : PruneAbort
  | noFuel : PruneAbort
deriving DecidableEq, Repr

/-- heap_prune_chain (lines 512-970): handle a dead heap-only / partial
heap-only root directly; otherwise walk the chain, collapse a dead prefix,
or clean up a dangling redirect.  Returns the number of deleted tuples and
the updated prune state. -/
def heap_prune_chain (ctx : PruneCtx) (page : Page) (rootoff : Nat)
    (fuel : Nat) (ps : PruneState) : Except PruneAbort (Nat × PruneState) :=
  let rootlp := page.getItem rootoff
  let walkPart : Except PruneAbort (Nat × PruneState) :=
    let w := walkLoop ctx page rootoff fuel rootoff none [] none ps
    match w.status with
    | .noFuel => .error .noFuel
    | .oracleErr => .error .oracleErr
    | .ok =>
      match w.latestdead with
      | some ldoff => .ok (collapseChain ctx page rootoff w.chain ldoff w.ps)
      | none =>
        if w.chain.length < 2 ∧ ItemIdIsRedirected rootlp then
          .ok (0, heap_prune_record_dead w.ps rootoff)
        else .ok (0, w.ps)
  match rootlp with
  | .normal htup =>
    if htup.heapOnly || htup.partialHeapOnly then
      if ctx.vis htup = 0 && !htup.hotUpdated && !htup.partialHotUpdated then
        if htup.heapOnly then .ok (1, heap_prune_record_unused ps rootoff)
        else .ok (1, heap_prune_record_dead ps rootoff)
      else .ok (0, ps)
    else walkPart
  | _ => walkPart

/-- The page scan of `heap_page_prune` (lines 271-297) from offset `offnum`
with `cnt` offsets left: skip marked, unused and dead items, process the
rest with `heap_prune_chain`, accumulating the deleted count. -/
def prunePageFrom (ctx : PruneCtx) (page : Page) (fuel : Nat) :
    Nat → Nat → Nat → PruneState → Except PruneAbort (Nat × PruneState)
  | 0, _, nd, ps => .ok (nd, ps)
  | cnt + 1, offnum, nd, ps =>
    if offnum ∈ ps.marked then prunePageFrom ctx page fuel cnt (offnum + 1) nd ps
    else if !(ItemIdIsUsed (page.getItem offnum)) ||
        ItemIdIsDead (page.getItem offnum) then
      prunePageFrom ctx page fuel cnt (offnum + 1) nd ps
    else
      match heap_prune_chain ctx page offnum fuel ps with
      | .error e => .error e
      | .ok (d, ps1) => prunePageFrom ctx page fuel cnt (offnum + 1) (nd + d) ps1

/-- heap_page_prune (lines 236-403), scan phase: walk all offsets of the
page and accumulate the transition plan; the returned number is the
deleted-tuples count `ndeleted`. -/
def heap_page_prune (ctx : PruneCtx) (page : Page) (fuel : Nat) :
    Except PruneAbort (Nat × PruneState) :=
  prunePageFrom ctx page fuel page.maxoff 1 0 PruneState.init

/-- heap_page_prune_execute (lines 1052-1115): apply the planned item
changes to the page.  `ItemIdSetRedirect` clears `lp_len` (no payload);
`ItemIdSetRedirectWithData` installs the stored `RLP_PHOT` payload bytes.
`PageRepairFragmentation` only moves tuple storage and is omitted. -/
def heap_page_prune_execute (page : Page) (ps : PruneState) : Page :=
  let p1 := ps.redirected.foldl
    (fun p e => p.setItem e.1 (.redirect e.2 none)) page
  let p2 := ps.redirectedData.foldl
    (fun p e => p.setItem e.1 (.redirect e.2.1 (some ⟨RLP_PHOT, e.2.2⟩))) p1
  let p3 := ps.nowdead.foldl (fun p o => p.setItem o .dead) p2
  ps.nowunused.foldl (fun p o => p.setItem o .unused) p3

/-! ## Bitmap codec lemmas (claim C4) -/

/-- Bit `k` of a byte assembled by `mkByte` is its `k`-th argument. -/
theorem mkByte_testBit : ∀ b0 b1 b2 b3 b4 b5 b6 b7 : Bool,
    (mkByte b0 b1 b2 b3 b4 b5 b6 b7).testBit 0 = b0 ∧
    (mkByte b0 b1 b2 b3 b4 b5 b6 b7).testBit 1 = b1 ∧
    (mkByte b0 b1 b2 b3 b4 b5 b6 b7).testBit 2 = b2 ∧
    (mkByte b0 b1 b2 b3 b4 b5 b6 b7).testBit 3 = b3 ∧
    (mkByte b0 b1 b2 b3 b4 b5 b6 b7).testBit 4 = b4 ∧
    (mkByte b0 b1 b2 b3 b4 b5 b6 b7).testBit 5 = b5 ∧
    (mkByte b0 b1 b2 b3 b4 b5 b6 b7).testBit 6 = b6 ∧
    (mkByte b0 b1 b2 b3 b4 b5 b6 b7).testBit 7 = b7 := by decide

theorem store_length (data : Finset Nat) (natts : Nat) :
    (StoreModifiedColumnsBitmap data natts).length = (natts + 7) / 8 := by
  simp [StoreModifiedColumnsBitmap]

theorem store_getD (data : Finset Nat) (natts : Nat) (j : Nat)
    (hj : j < (natts + 7) / 8) :
    (StoreModifiedColumnsBitmap data natts).getD j 0 =
      mkByte (decide (8 * j + 7 ∈ data)) (decide (8 * j + 1 + 7 ∈ data))
        (decide (8 * j + 2 + 7 ∈ data)) (decide (8 * j + 3 + 7 ∈ data))
        (decide (8 * j + 4 + 7 ∈ data)) (decide (8 * j + 5 + 7 ∈ data))
        (decide (8 * j + 6 + 7 ∈ data)) (decide (8 * j + 7 + 7 ∈ data)) := by
  simp [StoreModifiedColumnsBitmap, List.getD, List.getElem?_map,
    List.getElem?_range hj]

/-- Bit `i` of the stored buffer is set iff `i + 7` is a member. -/
theorem store_testBit (data : Finset Nat) (natts : Nat) (i : Nat)
    (hi : i < 8 * ((natts + 7) / 8)) :
    ((StoreModifiedColumnsBitmap data natts).getD (i / 8) 0).testBit (i % 8) =
      decide (i + 7 ∈ data) := by
  have hj : i / 8 < (natts + 7) / 8 := by omega
  rw [store_getD data natts (i / 8) hj]
  have h8 : i % 8 < 8 := Nat.mod_lt _ (by norm_num)
  have hsplit : 8 * (i / 8) + i % 8 = i := by omega
  rcases (mkByte_testBit (decide (8 * (i / 8) + 7 ∈ data))
    (decide (8 * (i / 8) + 1 + 7 ∈ data)) (decide (8 * (i / 8) + 2 + 7 ∈ data))
    (decide (8 * (i / 8) + 3 + 7 ∈ data)) (decide (8 * (i / 8) + 4 + 7 ∈ data))
    (decide (8 * (i / 8) + 5 + 7 ∈ data)) (decide (8 * (i / 8) + 6 + 7 ∈ data))
    (decide (8 * (i / 8) + 7 + 7 ∈ data))) with ⟨h0, h1, h2, h3, h4, h5, h6, h7⟩
  interval_cases h : i % 8 <;> simp_all <;> congr 1 <;> omega

/-- Decoding the stored bytes recovers exactly the members whose bit
positions fit inside the allocated buffer. -/
theorem decode_store (data : Finset Nat) (natts : Nat)
    (hvalid : ∀ m ∈ data, 8 ≤ m)
    (hfit : ∀ m ∈ data, m < 8 * ((natts + 7) / 8) + 7) :
    decodeRedirectBitmap (StoreModifiedColumnsBitmap data natts) = data := by
  ext x
  simp only [decodeRedirectBitmap, Finset.mem_image, Finset.mem_filter,
    Finset.mem_range, store_length]
  constructor
  · rintro ⟨i, ⟨hi, hbit⟩, rfl⟩
    rw [store_testBit data natts i (by omega)] at hbit
    exact of_decide_eq_true hbit
  · intro hx
    refine ⟨x - 7, ⟨?_, ?_⟩, ?_⟩
    · have := hfit x hx
      have := hvalid x hx
      omega
    · have hi : x - 7 < 8 * ((natts + 7) / 8) := by
        have h1 := hfit x hx
        have h2 := hvalid x hx
        omega
      rw [store_testBit data natts (x - 7) hi]
      have hx7 : x - 7 + 7 = x := by have := hvalid x hx; omega
      rw [hx7]; exact decide_eq_true hx
    · have := hvalid x hx; omega

/-- The codec round-trip does hold whenever the relation's attribute count
is not a multiple of 8 (every valid column's bit then fits the buffer). -/
theorem decode_store_roundtrip_natts_not_mult8 (data : Finset Nat) (natts : Nat)
    (hvalid : ∀ m ∈ data, 8 ≤ m ∧ m ≤ natts + 7) (h8 : natts % 8 ≠ 0) :
    decodeRedirectBitmap (StoreModifiedColumnsBitmap data natts) = data := by
  refine decode_store data natts (fun m hm => (hvalid m hm).1) (fun m hm => ?_)
  have := (hvalid m hm).2
  omega

/-- C4: the claim that decoding the encoded blob is the identity on every
column set fails: the code is off by one when the attribute count is a
multiple of 8.  For `natts = 8` and the set holding column 8 (bitmapset
member 15), `StoreModifiedColumnsBitmap` writes that column's bit at bit
position 8 — one byte past the single data byte allocated for eight
attributes (an out-of-bounds heap write in the C code) — so the stored
buffer decodes to the empty set, not to the original set. -/
theorem C4_roundtrip_fails_at_eight_columns :
    decodeRedirectBitmap (StoreModifiedColumnsBitmap {15} 8) = ∅ ∧
    ({15} : Finset Nat) ≠ ∅ ∧
    (∀ m ∈ ({15} : Finset Nat), 8 ≤ m ∧ m ≤ 8 + 7) ∧
    StoreModifiedColumnsBitmapOverflows {15} 8 = true := by decide

/-! ## Solitary-reclaim, dangling-redirect and walk-error lemmas
    (claims C6, C10, C7) -/

/-- C6: a heap-only or partial-heap-only tuple at the scanned root offset is
treated as a solitary reclaim candidate: if the visibility oracle classifies
it Dead and it carries neither updated flag, it is planned Unused when
heap-only and Dead when partial-heap-only (counting as one deletion);
otherwise nothing is planned; chain processing for this offset ends with
that result either way. -/
theorem C6_solitary_reclaim (ctx : PruneCtx) (page : Page) (rootoff fuel : Nat)
    (ps : PruneState) (htup : HeapTupleHeaderData)
    (hroot : page.getItem rootoff = .normal htup)
    (hho : (htup.heapOnly || htup.partialHeapOnly) = true) :
    heap_prune_chain ctx page rootoff fuel ps =
      if ctx.vis htup = 0 ∧ htup.hotUpdated = false ∧
          htup.partialHotUpdated = false then
        .ok (1, if htup.heapOnly then heap_prune_record_unused ps rootoff
                else heap_prune_record_dead ps rootoff)
      else .ok (0, ps) := by
  simp only [heap_prune_chain, hroot, hho, if_true]
  by_cases hv : ctx.vis htup = 0 ∧ htup.hotUpdated = false ∧
      htup.partialHotUpdated = false
  · obtain ⟨h1, h2, h3⟩ := hv
    simp only [h1, h2, h3]
    norm_num
    split <;> simp
  · rw [if_neg hv]
    have : (decide (ctx.vis htup = 0) && !htup.hotUpdated &&
        !htup.partialHotUpdated) = false := by
      rcases Bool.eq_false_or_eq_true htup.hotUpdated with h2 | h2 <;>
        rcases Bool.eq_false_or_eq_true htup.partialHotUpdated with h3 | h3 <;>
        by_cases h1 : ctx.vis htup = 0 <;> simp_all
    simp [this]

/-- C10: when the root line pointer is a redirect and the walk collects
fewer than two members while finding no dead prefix, the pass plans the
redirect slot itself as Dead (dangling-redirect cleanup). -/
theorem C10_dangling_redirect (ctx : PruneCtx) (page : Page)
    (rootoff fuel : Nat) (ps : PruneState) (t : Nat) (rd : Option RedirectData)
    (hroot : page.getItem rootoff = .redirect t rd)
    (hst : (walkLoop ctx page rootoff fuel rootoff none [] none ps).status = .ok)
    (hld : (walkLoop ctx page rootoff fuel rootoff none [] none ps).latestdead
      = none)
    (hlen : (walkLoop ctx page rootoff fuel rootoff none [] none ps).chain.length
      < 2) :
    heap_prune_chain ctx page rootoff fuel ps =
      .ok (0, heap_prune_record_dead
        (walkLoop ctx page rootoff fuel rootoff none [] none ps).ps rootoff) := by
  simp only [heap_prune_chain, hroot]
  rw [hst, hld]
  simp [hlen, hroot, ItemIdIsRedirected]

/-- All normal tuples stored on the page. -/
def pageNormalTuples (page : Page) : List HeapTupleHeaderData :=
  page.items.filterMap (fun it => match it with
    | .normal t => some t
    | _ => none)

theorem getItem_normal_mem (page : Page) (off : Nat)
    (htup : HeapTupleHeaderData) (h : page.getItem off = .normal htup) :
    htup ∈ pageNormalTuples page := by
  unfold Page.getItem at h
  rcases Nat.lt_or_ge (off - 1) page.items.length with hlt | hge
  · rw [List.getD_eq_getElem _ _ hlt] at h
    exact List.mem_filterMap.mpr ⟨page.items[off - 1], List.getElem_mem hlt,
      by rw [h]⟩
  · rw [List.getD_eq_default] at h
    · cases h
    · exact hge

/-- The chain walk never reaches the error arm when the visibility oracle
honours its contract (every classification is one of the five enum
values). -/
theorem walkLoop_status_ne_err (ctx : PruneCtx) (page : Page) (rootoff : Nat)
    (hvis : ∀ t ∈ pageNormalTuples page, ctx.vis t < 5) :
    ∀ fuel offnum priorXmax chain ld ps,
      (walkLoop ctx page rootoff fuel offnum priorXmax chain ld ps).status ≠
        .oracleErr := by
  intro fuel
  induction fuel with
  | zero => intro offnum priorXmax chain ld ps; simp [walkLoop]
  | succ n ih =>
    intro offnum priorXmax chain ld ps
    simp only [walkLoop]
    split
    · simp
    · split
      · simp
      · split
        · simp
        · apply ih
        · simp
        · rename_i htup heqn
          split
          · simp
          · split
            · split
              · simp
              · apply ih
            · split
              · simp
              · split
                · simp
                · rename_i hv0 hv24 hv13
                  exfalso
                  have hlt := hvis htup (getItem_normal_mem page offnum htup heqn)
                  simp at hv0 hv24 hv13
                  omega

/-- C7: the chain walk stops, without raising any error, at an out-of-range
slot, at an already-marked slot, at an unused slot, and at a member whose
xmin differs from the predecessor's recorded xmax — in each case returning
the members collected so far for processing — and the whole chain pass can
raise an error only through the visibility switch: when the oracle honours
its five-value contract, `heap_prune_chain` never returns the
unexpected-result error. -/
theorem C7_walk_stops_benignly (ctx : PruneCtx) (page : Page) (rootoff : Nat) :
    (∀ fuel offnum priorXmax chain ld ps,
      (offnum < 1 ∨ page.maxoff < offnum →
        walkLoop ctx page rootoff (fuel + 1) offnum priorXmax chain ld ps =
          ⟨chain, ld, ps, .ok⟩) ∧
      (1 ≤ offnum → offnum ≤ page.maxoff → offnum ∈ ps.marked →
        walkLoop ctx page rootoff (fuel + 1) offnum priorXmax chain ld ps =
          ⟨chain, ld, ps, .ok⟩) ∧
      (1 ≤ offnum → offnum ≤ page.maxoff → offnum ∉ ps.marked →
        page.getItem offnum = .unused →
        walkLoop ctx page rootoff (fuel + 1) offnum priorXmax chain ld ps =
          ⟨chain, ld, ps, .ok⟩) ∧
      (∀ htup p, 1 ≤ offnum → offnum ≤ page.maxoff → offnum ∉ ps.marked →
        page.getItem offnum = .normal htup → priorXmax = some p →
        p ≠ htup.xmin →
        walkLoop ctx page rootoff (fuel + 1) offnum priorXmax chain ld ps =
          ⟨chain, ld, ps, .ok⟩)) ∧
    (∀ fuel ps, (∀ t ∈ pageNormalTuples page, ctx.vis t < 5) →
      heap_prune_chain ctx page rootoff fuel ps ≠ .error .oracleErr) := by
  constructor
  · intro fuel offnum priorXmax chain ld ps
    refine ⟨?_, ?_, ?_, ?_⟩
    · intro hrange
      simp only [walkLoop]
      rw [if_pos hrange]
    · intro h1 h2 hm
      simp only [walkLoop]
      rw [if_neg (by omega), if_pos hm]
    · intro h1 h2 hm hun
      simp only [walkLoop, hun]
      rw [if_neg (by omega), if_neg hm]
    · intro htup p h1 h2 hm hn hpx hne
      have hrange : ¬(offnum < 1 ∨ page.maxoff < offnum) := by omega
      simp only [walkLoop, hn, hpx]
      rw [if_neg (by omega), if_neg (by simp [hm])]
      rw [if_pos ⟨by simp, fun hc => hne (Option.some.inj hc)⟩]
  · intro fuel ps hvis
    simp only [heap_prune_chain]
    have hw := walkLoop_status_ne_err ctx page rootoff hvis fuel rootoff
      none [] none ps
    rcases hW : walkLoop ctx page rootoff fuel rootoff none [] none ps with
      ⟨chain, ld, wps, status⟩
    rw [hW] at hw
    simp only [hW]
    cases status with
    | oracleErr => exact absurd rfl hw
    | ok =>
      split <;> (try split) <;> (try split) <;> (try split) <;> (try split) <;>
        simp_all
    | noFuel =>
      split <;> (try split) <;> (try split) <;> (try split) <;> (try split) <;>
        simp_all

/-! ## Concrete fixtures and witnesses -/

/-- Abbreviation for building tuple headers in fixtures. -/
def mkTup (xmin xmax ctid : Nat) (ho pho hu phu : Bool) : HeapTupleHeaderData :=
  ⟨xmin, xmax, ctid, ho, pho, hu, phu⟩

/-- An oracle context that classifies every tuple DEAD, with no modified
columns, two attributes. -/
def ctxAllDead : PruneCtx := ⟨fun _ => 0, fun _ _ => ∅, 2, false⟩

/-- Witness page for C6: a single dead, not-further-updated heap-only
tuple. -/
def pageC6 : Page := ⟨[.normal (mkTup 5 0 0 true false false false)]⟩

theorem C6_witness :
    heap_prune_chain ctxAllDead pageC6 1 3 PruneState.init =
      .ok (1, heap_prune_record_unused PruneState.init 1) := by
  rw [C6_solitary_reclaim ctxAllDead pageC6 1 3 PruneState.init
    (mkTup 5 0 0 true false false false) rfl rfl]
  norm_num [ctxAllDead, mkTup]

/-- Witness page for C10: a redirect whose target slot is unused. -/
def pageC10 : Page := ⟨[.redirect 2 none, .unused]⟩

theorem C10_witness :
    heap_prune_chain ctxAllDead pageC10 1 5 PruneState.init =
      .ok (0, heap_prune_record_dead
        (walkLoop ctxAllDead pageC10 1 5 1 none [] none PruneState.init).ps 1) := by
  exact C10_dangling_redirect ctxAllDead pageC10 1 5 PruneState.init 2 none
    (by decide) (by decide) (by decide) (by decide)

/-- Witness page for C7: a chain whose second member's xmin (99) does not
match the first member's xmax (10): the walk stops benignly, and the whole
chain pass raises no oracle error since the all-DEAD oracle is in
contract. -/
def pageC7 : Page := ⟨[
  .normal (mkTup 1 10 2 false false true false),
  .normal (mkTup 99 0 0 true false true true)]⟩

theorem C7_witness :
    walkLoop ctxAllDead pageC7 3 1 2 (some 10) [(1, false)] (some 1)
        PruneState.init =
      ⟨[(1, false)], some 1, PruneState.init, .ok⟩ ∧
    heap_prune_chain ctxAllDead pageC7 1 5 PruneState.init ≠
      .error .oracleErr := by
  constructor
  · exact ((C7_walk_stops_benignly ctxAllDead pageC7 3).1 0 2 (some 10)
      [(1, false)] (some 1) PruneState.init).2.2.2
      (mkTup 99 0 0 true false true true) 10 (by decide) (by decide)
      (by decide) (by decide) (by decide) (by decide)
  · exact (C7_walk_stops_benignly ctxAllDead pageC7 1).2 5 PruneState.init
      (by decide)

/-! ## Collapse-loop bookkeeping lemmas -/

theorem collapseStep_nowdead (ctx : PruneCtx) (page : Page)
    (chain : List (Nat × Bool)) (lastoff i : Nat) (st : CollapseSt) :
    (collapseStep ctx page chain lastoff i st).ps.nowdead = st.ps.nowdead ∨
    (collapseStep ctx page chain lastoff i st).ps.nowdead =
      st.ps.nowdead ++ [(chain.getD i (0, false)).1] := by
  unfold collapseStep
  split_ifs <;>
    (try simp [heap_prune_record_dead, heap_prune_record_unused,
      heap_prune_record_redirect, heap_prune_record_redirect_with_data]) <;>
    split_ifs <;>
    simp [heap_prune_record_dead, heap_prune_record_unused,
      heap_prune_record_redirect, heap_prune_record_redirect_with_data]

theorem collapseStep_nowunused (ctx : PruneCtx) (page : Page)
    (chain : List (Nat × Bool)) (lastoff i : Nat) (st : CollapseSt) :
    (collapseStep ctx page chain lastoff i st).ps.nowunused = st.ps.nowunused ∨
    (collapseStep ctx page chain lastoff i st).ps.nowunused =
      st.ps.nowunused ++ [(chain.getD i (0, false)).1] := by
  unfold collapseStep
  split_ifs <;>
    (try simp [heap_prune_record_dead, heap_prune_record_unused,
      heap_prune_record_redirect, heap_prune_record_redirect_with_data]) <;>
    split_ifs <;>
    simp [heap_prune_record_dead, heap_prune_record_unused,
      heap_prune_record_redirect, heap_prune_record_redirect_with_data]

theorem collapseStep_chain_dead (ctx : PruneCtx) (page : Page)
    (chain : List (Nat × Bool)) (lastoff i : Nat) (st : CollapseSt)
    (h : st.chain_dead = true) :
    (collapseStep ctx page chain lastoff i st).chain_dead = true := by
  unfold collapseStep
  rw [if_pos (by simp [h])]
  exact h

theorem collapseLoop_chain_dead (ctx : PruneCtx) (page : Page)
    (chain : List (Nat × Bool)) (lastoff : Nat) :
    ∀ i st, st.chain_dead = true →
      (collapseLoop ctx page chain lastoff i st).chain_dead = true := by
  intro i
  induction i with
  | zero => intro st h; exact h
  | succ n ih =>
    intro st h
    exact ih _ (collapseStep_chain_dead ctx page chain lastoff (n + 1) st h)

theorem collapseLoop_nowdead_mem (ctx : PruneCtx) (page : Page)
    (chain : List (Nat × Bool)) (lastoff : Nat) :
    ∀ i st x, x ∈ (collapseLoop ctx page chain lastoff i st).ps.nowdead →
      x ∈ st.ps.nowdead ∨
      ∃ j, 1 ≤ j ∧ j ≤ i ∧ x = (chain.getD j (0, false)).1 := by
  intro i
  induction i with
  | zero => intro st x hx; exact Or.inl hx
  | succ n ih =>
    intro st x hx
    rcases ih _ x hx with hmem | ⟨j, hj1, hj2, hj3⟩
    · rcases collapseStep_nowdead ctx page chain lastoff (n + 1) st with he | he
      · rw [he] at hmem; exact Or.inl hmem
      · rw [he] at hmem
        rcases List.mem_append.mp hmem with h | h
        · exact Or.inl h
        · right
          exact ⟨n + 1, by omega, le_refl _, by simpa using h⟩
    · exact Or.inr ⟨j, hj1, by omega, hj3⟩

theorem collapseLoop_nowunused_mem (ctx : PruneCtx) (page : Page)
    (chain : List (Nat × Bool)) (lastoff : Nat) :
    ∀ i st x, x ∈ (collapseLoop ctx page chain lastoff i st).ps.nowunused →
      x ∈ st.ps.nowunused ∨
      ∃ j, 1 ≤ j ∧ j ≤ i ∧ x = (chain.getD j (0, false)).1 := by
  intro i
  induction i with
  | zero => intro st x hx; exact Or.inl hx
  | succ n ih =>
    intro st x hx
    rcases ih _ x hx with hmem | ⟨j, hj1, hj2, hj3⟩
    · rcases collapseStep_nowunused ctx page chain lastoff (n + 1) st with he | he
      · rw [he] at hmem; exact Or.inl hmem
      · rw [he] at hmem
        rcases List.mem_append.mp hmem with h | h
        · exact Or.inl h
        · right
          exact ⟨n + 1, by omega, le_refl _, by simpa using h⟩
    · exact Or.inr ⟨j, hj1, by omega, hj3⟩

theorem collapseLoop_nowdead_mono (ctx : PruneCtx) (page : Page)
    (chain : List (Nat × Bool)) (lastoff : Nat) :
    ∀ i st x, x ∈ st.ps.nowdead →
      x ∈ (collapseLoop ctx page chain lastoff i st).ps.nowdead := by
  intro i
  induction i with
  | zero => intro st x hx; exact hx
  | succ n ih =>
    intro st x hx
    refine ih _ x ?_
    rcases collapseStep_nowdead ctx page chain lastoff (n + 1) st with he | he <;>
      rw [he] <;> simp [hx]

theorem collapseLoop_nowunused_mono (ctx : PruneCtx) (page : Page)
    (chain : List (Nat × Bool)) (lastoff : Nat) :
    ∀ i st x, x ∈ st.ps.nowunused →
      x ∈ (collapseLoop ctx page chain lastoff i st).ps.nowunused := by
  intro i
  induction i with
  | zero => intro st x hx; exact hx
  | succ n ih =>
    intro st x hx
    refine ih _ x ?_
    rcases collapseStep_nowunused ctx page chain lastoff (n + 1) st with he | he <;>
      rw [he] <;> simp [hx]

/-- Distinct positions of a chain with duplicate-free member offsets hold
distinct offsets. -/
theorem chain_getD_ne (chain : List (Nat × Bool))
    (hnodup : (chain.map Prod.fst).Nodup) (j k : Nat)
    (hj : j < chain.length) (hk : k < chain.length) (hjk : j ≠ k) :
    (chain.getD j (0, false)).1 ≠ (chain.getD k (0, false)).1 := by
  rw [List.getD_eq_getElem _ _ hj, List.getD_eq_getElem _ _ hk]
  intro hcontra
  have hj2 : j < (chain.map Prod.fst).length := by simpa using hj
  have hk2 : k < (chain.map Prod.fst).length := by simpa using hk
  have : (chain.map Prod.fst)[j] = (chain.map Prod.fst)[k] := by
    simpa using hcontra
  exact hjk (hnodup.getElem_inj_iff.mp this)

/-- C1 (amended): for a whole-chain-dead walk, the tail slot is planned
Dead exactly when the chain has a single member or the tail member itself
is (or was) partial; otherwise the tail is planned Unused — the partial
status of non-tail members does not influence the tail's planned state. -/
theorem C1_whole_chain_dead_tail (ctx : PruneCtx) (page : Page)
    (rootoff fuel : Nat) (ps : PruneState) (chain : List (Nat × Bool))
    (wps : PruneState) (lastoff : Nat)
    (hw : walkLoop ctx page rootoff fuel rootoff none [] none ps =
      ⟨chain, some lastoff, wps, .ok⟩)
    (hroot : ∀ htup, page.getItem rootoff = .normal htup →
      htup.heapOnly = false ∧ htup.partialHeapOnly = false)
    (hne : chain ≠ [])
    (hlast : (chain.getD (chain.length - 1) (0, false)).1 = lastoff)
    (hfirst : (chain.getD 0 (0, false)).1 = rootoff)
    (hnodup : (chain.map Prod.fst).Nodup)
    (hfreshd : lastoff ∉ wps.nowdead)
    (hfreshu : lastoff ∉ wps.nowunused) :
    ∃ nd ps2, heap_prune_chain ctx page rootoff fuel ps = .ok (nd, ps2) ∧
      ((chain.length = 1 ∨ (chain.getD (chain.length - 1) (0, false)).2 = true) →
        lastoff ∈ ps2.nowdead ∧ lastoff ∉ ps2.nowunused) ∧
      (¬(chain.length = 1 ∨ (chain.getD (chain.length - 1) (0, false)).2 = true) →
        lastoff ∈ ps2.nowunused ∧ lastoff ∉ ps2.nowdead) := by
  have hlen : 0 < chain.length := List.length_pos.mpr hne
  -- reduce heap_prune_chain to the collapse
  have hred : heap_prune_chain ctx page rootoff fuel ps =
      .ok (collapseChain ctx page rootoff chain lastoff wps) := by
    simp only [heap_prune_chain, hw]
    split
    · rename_i htup hr
      rcases hroot htup hr with ⟨h1, h2⟩
      simp [h1, h2]
    · rfl
  rw [hred]
  simp only [collapseChain, hlast]
  set st0 := collapseInit ctx page chain lastoff lastoff wps with hst0
  set stf := collapseLoop ctx page chain lastoff (chain.length - 2) st0 with hstf
  have hst0cd : st0.chain_dead = true := by
    rw [hst0]; simp only [collapseInit]; rw [if_pos trivial]
  have hstfcd : stf.chain_dead = true := by
    rw [hstf]; exact collapseLoop_chain_dead ctx page chain lastoff _ st0 hst0cd
  have hst0ps : st0.ps =
      if ((chain.length - 1 == 0) ||
          (chain.getD (chain.length - 1) (0, false)).2) = true then
        heap_prune_record_dead wps lastoff
      else heap_prune_record_unused wps lastoff := by
    rw [hst0]; simp only [collapseInit]; rw [if_pos trivial]
  have hps2 : (collapseFinish ctx page rootoff lastoff chain.length stf).2 =
      if 1 < chain.length then heap_prune_record_dead stf.ps rootoff
      else stf.ps := by
    simp only [collapseFinish, hstfcd]
    split
    · simp
    · simp
  -- offsets added by the interior loop differ from the tail offset
  have hloopne : ∀ j, 1 ≤ j → j ≤ chain.length - 2 →
      (chain.getD j (0, false)).1 ≠ lastoff := by
    intro j h1 h2
    rw [← hlast]
    exact chain_getD_ne chain hnodup j (chain.length - 1) (by omega) (by omega)
      (by omega)
  have hrootne : 1 < chain.length → rootoff ≠ lastoff := by
    intro h2
    rw [← hfirst, ← hlast]
    exact chain_getD_ne chain hnodup 0 (chain.length - 1) (by omega) (by omega)
      (by omega)
  refine ⟨(collapseFinish ctx page rootoff lastoff chain.length stf).1,
    (collapseFinish ctx page rootoff lastoff chain.length stf).2, rfl, ?_, ?_⟩
  · -- tail planned Dead
    intro hdead
    have hcond : ((chain.length - 1 == 0) ||
        (chain.getD (chain.length - 1) (0, false)).2) = true := by
      simp only [Bool.or_eq_true, beq_iff_eq]
      rcases hdead with h | h
      · left; omega
      · right; exact h
    have hst0d : st0.ps = heap_prune_record_dead wps lastoff := by
      rw [hst0ps, if_pos hcond]
    have hin0 : lastoff ∈ st0.ps.nowdead := by
      rw [hst0d]; simp [heap_prune_record_dead]
    have hinf : lastoff ∈ stf.ps.nowdead := by
      rw [hstf]
      exact collapseLoop_nowdead_mono ctx page chain lastoff _ st0 lastoff hin0
    have hnu0 : lastoff ∉ st0.ps.nowunused := by
      rw [hst0d]
      simpa [heap_prune_record_dead] using hfreshu
    have hnuf : lastoff ∉ stf.ps.nowunused := by
      intro hmem
      rw [hstf] at hmem
      rcases collapseLoop_nowunused_mem ctx page chain lastoff _ st0 lastoff
        hmem with h | ⟨j, hj1, hj2, hj3⟩
      · exact hnu0 h
      · exact hloopne j hj1 hj2 hj3.symm
    rw [hps2]
    constructor
    · split
      · simp [heap_prune_record_dead, hinf]
      · exact hinf
    · split
      · simpa [heap_prune_record_dead] using hnuf
      · exact hnuf
  · -- tail planned Unused
    intro hnot
    push_neg at hnot
    obtain ⟨hlen1, hph⟩ := hnot
    have hgt : 1 < chain.length := by omega
    have hphf : (chain.getD (chain.length - 1) (0, false)).2 = false := by
      cases hb : (chain.getD (chain.length - 1) (0, false)).2
      · rfl
      · exact absurd hb hph
    have hcond : ((chain.length - 1 == 0) ||
        (chain.getD (chain.length - 1) (0, false)).2) = false := by
      have h0 : (chain.length - 1 == 0) = false := by
        simp only [beq_eq_false_iff_ne]; omega
      simp only [h0, hphf]
      rfl
    have hst0u : st0.ps = heap_prune_record_unused wps lastoff := by
      rw [hst0ps, if_neg (by simp only [hcond]; exact Bool.false_ne_true)]
    have hin0 : lastoff ∈ st0.ps.nowunused := by
      rw [hst0u]; simp [heap_prune_record_unused]
    have hinf : lastoff ∈ stf.ps.nowunused := by
      rw [hstf]
      exact collapseLoop_nowunused_mono ctx page chain lastoff _ st0 lastoff hin0
    have hnd0 : lastoff ∉ st0.ps.nowdead := by
      rw [hst0u]
      simpa [heap_prune_record_unused] using hfreshd
    have hndf : lastoff ∉ stf.ps.nowdead := by
      intro hmem
      rw [hstf] at hmem
      rcases collapseLoop_nowdead_mem ctx page chain lastoff _ st0 lastoff
        hmem with h | ⟨j, hj1, hj2, hj3⟩
      · exact hnd0 h
      · exact hloopne j hj1 hj2 hj3.symm
    rw [hps2, if_pos hgt]
    constructor
    · simp [heap_prune_record_dead, hinf]
    · simp only [heap_prune_record_dead, List.mem_append, List.mem_singleton]
      rintro (h | h)
      · exact hndf h
      · exact (hrootne hgt) h.symm

/-- Counterexample page for C1: fully-dead 3-member chain whose root was
PHOT-updated and whose middle member is partial-heap-only, but whose tail
is a plain heap-only tuple. -/
def pageC1x : Page := ⟨[
  .normal (mkTup 1 10 2 false false false true),
  .normal (mkTup 10 11 3 false true true false),
  .normal (mkTup 11 0 0 true false false false)]⟩

/-- C1 counterexample: on `pageC1x` the walk classifies the whole chain
dead with members 1 and 2 partial (PHOT) and the tail not partial, yet the
pass plans the tail slot (offset 3) Unused, not Dead — refuting the claim
that any partial member anywhere forces a Dead tail. -/
theorem C1_counterexample :
    walkLoop ctxAllDead pageC1x 1 10 1 none [] none PruneState.init =
      ⟨[(1, true), (2, true), (3, false)], some 3, PruneState.init, .ok⟩ ∧
    (heap_prune_chain ctxAllDead pageC1x 1 10 PruneState.init).toOption.map
        (fun x => (x.1, x.2.nowdead, x.2.nowunused, x.2.redirected,
          x.2.redirectedData)) =
      some (3, [2, 1], [3], [], []) := by
  exact ⟨by decide, rfl⟩

/-- Witness page for C1 (amended): fully-dead 2-member chain whose tail is
itself partial-heap-only: the tail is planned Dead. -/
def pageC1w : Page := ⟨[
  .normal (mkTup 1 10 2 false false false true),
  .normal (mkTup 10 0 0 false true false false)]⟩

theorem C1_witness :
    ∃ nd ps2, heap_prune_chain ctxAllDead pageC1w 1 10 PruneState.init =
      .ok (nd, ps2) ∧
    (([(1, true), (2, true)] : List (Nat × Bool)).length = 1 ∨
        (([(1, true), (2, true)] : List (Nat × Bool)).getD
          (([(1, true), (2, true)] : List (Nat × Bool)).length - 1)
          (0, false)).2 = true →
      2 ∈ ps2.nowdead ∧ 2 ∉ ps2.nowunused) ∧
    (¬(([(1, true), (2, true)] : List (Nat × Bool)).length = 1 ∨
        (([(1, true), (2, true)] : List (Nat × Bool)).getD
          (([(1, true), (2, true)] : List (Nat × Bool)).length - 1)
          (0, false)).2 = true) →
      2 ∈ ps2.nowunused ∧ 2 ∉ ps2.nowdead) :=
  C1_whole_chain_dead_tail ctxAllDead pageC1w 1 10 PruneState.init
    [(1, true), (2, true)] PruneState.init 2 (by decide)
    (by intro htup h; cases h; exact ⟨rfl, rfl⟩) (by decide) (by decide)
    (by decide) (by decide) (by decide) (by decide)

/-- C2 (amended): a fully-dead 3-member chain with no partial member plans
the interior member and the tail Unused, the root Dead (not Unused), three
deletions, and no redirects. -/
theorem C2_fully_dead_three_chain (ctx : PruneCtx) (page : Page)
    (rootoff fuel : Nat) (ps : PruneState) (c0 c1 c2 : Nat) (wps : PruneState)
    (hw : walkLoop ctx page rootoff fuel rootoff none [] none ps =
      ⟨[(c0, false), (c1, false), (c2, false)], some c2, wps, .ok⟩)
    (hroot : ∀ htup, page.getItem rootoff = .normal htup →
      htup.heapOnly = false ∧ htup.partialHeapOnly = false)
    (hc0 : c0 = rootoff)
    (hn0 : ItemIdIsNormal (page.getItem c0) = true)
    (hn1 : ItemIdIsNormal (page.getItem c1) = true)
    (hn2 : ItemIdIsNormal (page.getItem c2) = true) :
    heap_prune_chain ctx page rootoff fuel ps =
      .ok (3, { wps with
        nowdead := wps.nowdead ++ [c0]
        nowunused := wps.nowunused ++ [c2, c1]
        marked := insert c0 (insert c1 (insert c2 wps.marked)) }) := by
  have hred : heap_prune_chain ctx page rootoff fuel ps =
      .ok (collapseChain ctx page rootoff
        [(c0, false), (c1, false), (c2, false)] c2 wps) := by
    simp only [heap_prune_chain, hw]
    split
    · rename_i htup hr
      rcases hroot htup hr with ⟨h1, h2⟩
      simp [h1, h2]
    · rfl
  rw [hred]
  simp only [collapseChain, collapseInit, collapseLoop, collapseStep,
    collapseFinish, List.length_cons, List.length_nil, List.getD_cons_zero,
    List.getD_cons_succ]
  norm_num
  rw [hc0] at hn0
  constructor
  · simp [hn0, hn1, hn2]
  · simp [heap_prune_record_dead, heap_prune_record_unused, hc0]

/-- Counterexample page for C2: fully-dead 3-member plain HOT chain. -/
def pageC2x : Page := ⟨[
  .normal (mkTup 1 10 2 false false true false),
  .normal (mkTup 10 11 3 true false true false),
  .normal (mkTup 11 0 0 true false false false)]⟩

/-- C2 counterexample: on the fully-dead, never-partial 3-member chain the
pass plans the root slot (offset 1) Dead, not Unused as the claim states;
the interior member and the tail are the Unused ones. -/
theorem C2_counterexample :
    walkLoop ctxAllDead pageC2x 1 10 1 none [] none PruneState.init =
      ⟨[(1, false), (2, false), (3, false)], some 3, PruneState.init, .ok⟩ ∧
    (heap_prune_chain ctxAllDead pageC2x 1 10 PruneState.init).toOption.map
        (fun x => (x.1, x.2.nowdead, x.2.nowunused)) =
      some (3, [1], [3, 2]) := by
  exact ⟨by decide, rfl⟩

/-- Witness page for C2 (amended): same shape as `pageC2x` with different
transaction ids and offsets permuted via a redirect-free layout. -/
def pageC2w : Page := ⟨[
  .normal (mkTup 2 20 2 false false true false),
  .normal (mkTup 20 21 3 true false true false),
  .normal (mkTup 21 0 0 true false false false)]⟩

theorem C2_witness :
    heap_prune_chain ctxAllDead pageC2w 1 10 PruneState.init =
      .ok (3, { PruneState.init with
        nowdead := PruneState.init.nowdead ++ [1]
        nowunused := PruneState.init.nowunused ++ [3, 2]
        marked := insert 1 (insert 2 (insert 3 PruneState.init.marked)) }) :=
  C2_fully_dead_three_chain ctxAllDead pageC2w 1 10 PruneState.init 1 2 3
    PruneState.init (by decide) (by intro htup h; cases h; exact ⟨rfl, rfl⟩)
    rfl (by decide) (by decide) (by decide)

/-- Invariant of the interior loop: whenever `chain_dead` is set during the
scan of a live-tailed chain, the accumulated modified-attribute set has
reached the whole interesting set (the `chain_dead` reassignment after a new
key item is the only way to set it). -/
theorem collapseStep_cd_inv (ctx : PruneCtx) (page : Page)
    (chain : List (Nat × Bool)) (lastoff i : Nat) (st : CollapseSt)
    (hI : st.chain_dead = true → st.modified_attrs = st.interesting) :
    (collapseStep ctx page chain lastoff i st).chain_dead = true →
      (collapseStep ctx page chain lastoff i st).modified_attrs =
        (collapseStep ctx page chain lastoff i st).interesting := by
  unfold collapseStep
  by_cases h1 : (st.chain_dead ||
      (!st.has_phot && !(chain.getD i (0, false)).2)) = true
  · rw [if_pos h1]
    intro hcd
    exact hI (by simpa using hcd)
  · rw [if_neg h1]
    have hcd0 : st.chain_dead = false := by
      rcases Bool.eq_false_or_eq_true st.chain_dead with h | h
      · exact absurd (by simp [h]) h1
      · exact h
    split_ifs <;> intro hcd <;> (try simp_all) <;>
      (try split_ifs at hcd) <;> simp_all

theorem collapseLoop_cd_inv (ctx : PruneCtx) (page : Page)
    (chain : List (Nat × Bool)) (lastoff : Nat) :
    ∀ i st, (st.chain_dead = true → st.modified_attrs = st.interesting) →
      (collapseLoop ctx page chain lastoff i st).chain_dead = true →
        (collapseLoop ctx page chain lastoff i st).modified_attrs =
          (collapseLoop ctx page chain lastoff i st).interesting := by
  intro i
  induction i with
  | zero => intro st h; exact h
  | succ n ih =>
    intro st h
    exact ih _ (collapseStep_cd_inv ctx page chain lastoff (n + 1) st h)

/-- A step on a non-partial member of a chain that has produced no key yet
takes the cheap reclaim path and establishes no key. -/
theorem collapseStep_nokey (ctx : PruneCtx) (page : Page)
    (chain : List (Nat × Bool)) (lastoff i : Nat) (st : CollapseSt)
    (hph : (chain.getD i (0, false)).2 = false)
    (hhp : st.has_phot = false) (hcd : st.chain_dead = false)
    (hk : st.keyitems = []) :
    (collapseStep ctx page chain lastoff i st).has_phot = false ∧
    (collapseStep ctx page chain lastoff i st).chain_dead = false ∧
    (collapseStep ctx page chain lastoff i st).keyitems = [] := by
  unfold collapseStep
  have hcond : (st.chain_dead ||
      (!st.has_phot && !(chain.getD i (0, false)).2)) = true := by
    rw [hhp, hph]; simp
  rw [if_pos hcond]
  exact ⟨hhp, hcd, hk⟩

theorem collapseLoop_nokey (ctx : PruneCtx) (page : Page)
    (chain : List (Nat × Bool)) (lastoff : Nat) :
    ∀ i st, (∀ j, 1 ≤ j → j ≤ i → (chain.getD j (0, false)).2 = false) →
      st.has_phot = false → st.chain_dead = false → st.keyitems = [] →
      (collapseLoop ctx page chain lastoff i st).has_phot = false ∧
      (collapseLoop ctx page chain lastoff i st).chain_dead = false ∧
      (collapseLoop ctx page chain lastoff i st).keyitems = [] := by
  intro i
  induction i with
  | zero => intro st _ h1 h2 h3; exact ⟨h1, h2, h3⟩
  | succ n ih =>
    intro st hph h1 h2 h3
    rcases collapseStep_nokey ctx page chain lastoff (n + 1) st
      (hph (n + 1) (by omega) (le_refl _)) h1 h2 h3 with ⟨g1, g2, g3⟩
    exact ih _ (fun j hj1 hj2 => hph j hj1 (by omega)) g1 g2 g3

/-- C3 (amended): after the tail-to-root scan of a chain with a live tail
and a dead prefix, the root slot is planned: Dead when the scan's
`chain_dead` flag is set — which, the tail being live, happens exactly when
the accumulated modified-column set has reached the whole interesting set —
a plain Redirect to the tail when no key item was established (in
particular whenever no member is partial), and otherwise RedirectWithData
pointing at the most recently established key item, whose stored payload
serializes the `intermediate` bitmap (the columns folded in since that most
recent key), not the full accumulated key bitmap. -/
theorem C3_live_tail_root (ctx : PruneCtx) (page : Page) (rootoff fuel : Nat)
    (ps : PruneState) (chain : List (Nat × Bool)) (wps : PruneState)
    (ldoff : Nat)
    (hw : walkLoop ctx page rootoff fuel rootoff none [] none ps =
      ⟨chain, some ldoff, wps, .ok⟩)
    (hroot : ∀ htup, page.getItem rootoff = .normal htup →
      htup.heapOnly = false ∧ htup.partialHeapOnly = false)
    (hgt : 1 < chain.length)
    (hlive : (chain.getD (chain.length - 1) (0, false)).1 ≠ ldoff) :
    ∃ nd ps2, heap_prune_chain ctx page rootoff fuel ps = .ok (nd, ps2) ∧
      ∀ stf, stf = collapseLoop ctx page chain
          (chain.getD (chain.length - 1) (0, false)).1 (chain.length - 2)
          (collapseInit ctx page chain
            (chain.getD (chain.length - 1) (0, false)).1 ldoff wps) →
        ((stf.chain_dead = true →
            ps2 = heap_prune_record_dead stf.ps rootoff ∧
            stf.modified_attrs = stf.interesting) ∧
         (stf.chain_dead = false → stf.keyitems = [] →
            ps2 = heap_prune_record_redirect stf.ps rootoff
              (chain.getD (chain.length - 1) (0, false)).1) ∧
         (stf.chain_dead = false → stf.keyitems ≠ [] →
            ps2 = heap_prune_record_redirect_with_data stf.ps rootoff
              (stf.keyitems.getLastD 0) ctx.natts stf.intermediate) ∧
         ((∀ j, j < chain.length → (chain.getD j (0, false)).2 = false) →
            stf.chain_dead = false ∧ stf.keyitems = [])) := by
  have hred : heap_prune_chain ctx page rootoff fuel ps =
      .ok (collapseChain ctx page rootoff chain ldoff wps) := by
    simp only [heap_prune_chain, hw]
    split
    · rename_i htup hr
      rcases hroot htup hr with ⟨h1, h2⟩
      simp [h1, h2]
    · rfl
  rw [hred]
  simp only [collapseChain]
  set lastoff := (chain.getD (chain.length - 1) (0, false)).1 with hlo
  set st0 := collapseInit ctx page chain lastoff ldoff wps with hst0
  set stf := collapseLoop ctx page chain lastoff (chain.length - 2) st0 with hstfd
  -- the tail is live, so the initial state is not chain-dead and carries an
  -- invariant-compatible setup
  have hst0cd : st0.chain_dead = false := by
    rw [hst0]
    simp only [collapseInit]
    rw [if_neg hlive]
    split <;> rfl
  have hst0inv : st0.chain_dead = true → st0.modified_attrs = st0.interesting := by
    intro h; rw [hst0cd] at h; cases h
  have hstfinv : stf.chain_dead = true →
      stf.modified_attrs = stf.interesting := by
    rw [hstfd]
    exact collapseLoop_cd_inv ctx page chain lastoff _ st0 hst0inv
  refine ⟨(collapseFinish ctx page rootoff lastoff chain.length stf).1,
    (collapseFinish ctx page rootoff lastoff chain.length stf).2, rfl, ?_⟩
  rintro stf2 rfl
  refine ⟨?_, ?_, ?_, ?_⟩
  · intro hcd
    refine ⟨?_, hstfinv hcd⟩
    simp only [collapseFinish, hcd, if_pos hgt]
    simp
  · intro hcd hk
    simp only [collapseFinish, hcd, hk, if_pos hgt]
    simp
  · intro hcd hk
    simp only [collapseFinish, hcd, if_pos hgt]
    simp [hk]
  · intro hph
    have htail : (chain.getD (chain.length - 1) (0, false)).2 = false :=
      hph (chain.length - 1) (by omega)
    have hst0f : st0.has_phot = false ∧ st0.chain_dead = false ∧
        st0.keyitems = [] := by
      rw [hst0]
      simp only [collapseInit]
      rw [if_neg hlive]
      rw [htail]
      simp
    rcases hst0f with ⟨g1, g2, g3⟩
    have := collapseLoop_nokey ctx page chain lastoff (chain.length - 2) st0
      (fun j hj1 hj2 => hph j (by omega)) g1 g2 g3
    rw [hstfd]
    exact ⟨this.2.1, this.2.2⟩

/-- Counterexample context for C3 (two attributes): update 1→2 modified
attribute 1 (member 8), update 2→3 modified attribute 2 (member 9). -/
def ctxC3x : PruneCtx :=
  ⟨fun t => if t.xmin == 12 then 1 else 0,
   fun a b => if a == 1 && b == 2 then {8}
              else if a == 2 && b == 3 then {9} else ∅,
   2, false⟩

/-- Same updates over a three-attribute relation. -/
def ctxC3b : PruneCtx :=
  ⟨fun t => if t.xmin == 12 then 1 else 0,
   fun a b => if a == 1 && b == 2 then {8}
              else if a == 2 && b == 3 then {9} else ∅,
   3, false⟩

/-- Counterexample page for C3: dead prefix of three PHOT members followed
by a live heap-only tail. -/
def pageC3x : Page := ⟨[
  .normal (mkTup 1 10 2 false false false true),
  .normal (mkTup 10 11 3 false true false true),
  .normal (mkTup 11 12 4 false true true false),
  .normal (mkTup 12 0 0 true false false false)]⟩

/-- C3 counterexample.  First part (two attributes): the accumulated key
bitmap reaches the whole interesting set, so the pass plans the root slot
Dead even though the tail (offset 4) is live — where the claim requires a
RedirectWithData root.  Second part (three attributes): the root is planned
RedirectWithData toward the most recent key (offset 2) with payload bytes
`[2]`, the serialization of the bitmap accumulated since that key; the
claim's payload — the final accumulated key bitmap, members 8 and 9 —
serializes to `[6] ≠ [2]`. -/
theorem C3_counterexample :
    (walkLoop ctxC3x pageC3x 1 10 1 none [] none PruneState.init =
      ⟨[(1, true), (2, true), (3, true), (4, false)], some 3,
        PruneState.init, .ok⟩) ∧
    (heap_prune_chain ctxC3x pageC3x 1 10 PruneState.init).toOption.map
        (fun x => (x.1, x.2.nowdead, x.2.redirected, x.2.redirectedData)) =
      some (3, [1], [(3, 4)], [(2, 3, [4])]) ∧
    (heap_prune_chain ctxC3b pageC3x 1 10 PruneState.init).toOption.map
        (fun x => (x.2.nowdead, x.2.redirected, x.2.redirectedData)) =
      some ([], [(3, 4)], [(2, 3, [4]), (1, 2, [2])]) ∧
    StoreModifiedColumnsBitmap {8, 9} 3 = [6] ∧
    ([2] : List Nat) ≠ [6] := by
  exact ⟨by decide, rfl, rfl, by decide, by decide⟩

/-- Witness page for C3 (amended): a dead root followed by a live heap-only
tail (a plain HOT chain). -/
def pageC3w : Page := ⟨[
  .normal (mkTup 1 30 2 false false true false),
  .normal (mkTup 30 0 0 true false false false)]⟩

/-- Oracle for the C3 witness: the tail (xmin 30) is live, the root dead. -/
def ctxC3w : PruneCtx :=
  ⟨fun t => if t.xmin == 30 then 1 else 0, fun _ _ => ∅, 2, false⟩

theorem C3_witness :
    ∃ nd ps2, heap_prune_chain ctxC3w pageC3w 1 10 PruneState.init =
      .ok (nd, ps2) ∧
      ∀ stf, stf = collapseLoop ctxC3w pageC3w
          [(1, false), (2, false)]
          (([(1, false), (2, false)] : List (Nat × Bool)).getD
            (([(1, false), (2, false)] : List (Nat × Bool)).length - 1)
            (0, false)).1
          (([(1, false), (2, false)] : List (Nat × Bool)).length - 2)
          (collapseInit ctxC3w pageC3w [(1, false), (2, false)]
            (([(1, false), (2, false)] : List (Nat × Bool)).getD
              (([(1, false), (2, false)] : List (Nat × Bool)).length - 1)
              (0, false)).1 1 PruneState.init) →
        ((stf.chain_dead = true →
            ps2 = heap_prune_record_dead stf.ps 1 ∧
            stf.modified_attrs = stf.interesting) ∧
         (stf.chain_dead = false → stf.keyitems = [] →
            ps2 = heap_prune_record_redirect stf.ps 1
              (([(1, false), (2, false)] : List (Nat × Bool)).getD
                (([(1, false), (2, false)] : List (Nat × Bool)).length - 1)
                (0, false)).1) ∧
         (stf.chain_dead = false → stf.keyitems ≠ [] →
            ps2 = heap_prune_record_redirect_with_data stf.ps 1
              (stf.keyitems.getLastD 0) ctxC3w.natts stf.intermediate) ∧
         ((∀ j, j < ([(1, false), (2, false)] : List (Nat × Bool)).length →
              (([(1, false), (2, false)] : List (Nat × Bool)).getD j
                (0, false)).2 = false) →
            stf.chain_dead = false ∧ stf.keyitems = [])) :=
  C3_live_tail_root ctxC3w pageC3w 1 10 PruneState.init
    [(1, false), (2, false)] PruneState.init 1 (by decide)
    (by intro htup h; cases h; exact ⟨rfl, rfl⟩) (by decide) (by decide)

/-! ## Chain-length bound lemmas (claim C9) -/

/-- Every member the walk collects passed the loop's range check: all chain
offsets lie between `FirstOffsetNumber` and the page's max offset. -/
theorem walkLoop_chain_offsets (ctx : PruneCtx) (page : Page) (rootoff : Nat) :
    ∀ fuel offnum priorXmax chain ld ps,
      (∀ x ∈ chain, 1 ≤ x.1 ∧ x.1 ≤ page.maxoff) →
      ∀ x ∈ (walkLoop ctx page rootoff fuel offnum priorXmax chain ld ps).chain,
        1 ≤ x.1 ∧ x.1 ≤ page.maxoff := by
  intro fuel
  induction fuel with
  | zero => intro offnum px chain ld ps hacc x hx; exact hacc x hx
  | succ n ih =>
    intro offnum px chain ld ps hacc x
    simp only [walkLoop]
    split
    · exact hacc x
    · rename_i hrange
      have hb : 1 ≤ offnum ∧ offnum ≤ page.maxoff := by
        push_neg at hrange; omega
      have hext : ∀ ph : Bool, ∀ y ∈ chain ++ [(offnum, ph)],
          1 ≤ y.1 ∧ y.1 ≤ page.maxoff := by
        intro ph y hy
        rcases List.mem_append.mp hy with h | h
        · exact hacc y h
        · simp at h; rw [h]; exact hb
      split
      · exact hacc x
      · split
        · exact hacc x
        · exact ih _ _ _ _ _ (hext _) x
        · exact hacc x
        · split
          · exact hacc x
          · split
            · split
              · exact hext _ x
              · exact ih _ _ _ _ _ (hext _) x
            · split
              · exact hext _ x
              · split
                · exact hext _ x
                · exact hext _ x

/-- C9 (amended): when the chain walk visits no slot twice (duplicate-free
member offsets, the shape of every uncorrupted page), it accumulates at
most as many members as the page has slots, hence at most
`MaxHeapTuplesPerPage` on any page sized within that bound; the code
contains no overflow check, and on a corrupted (cyclic) page the walk
exceeds the bound without stopping or aborting (see the
counterexample). -/
theorem C9_walk_bounded_when_acyclic (ctx : PruneCtx) (page : Page)
    (rootoff fuel : Nat) (ps : PruneState)
    (hnodup : ((walkLoop ctx page rootoff fuel rootoff none [] none
      ps).chain.map Prod.fst).Nodup) :
    (walkLoop ctx page rootoff fuel rootoff none [] none ps).chain.length ≤
      page.maxoff ∧
    (page.maxoff ≤ MaxHeapTuplesPerPage →
      (walkLoop ctx page rootoff fuel rootoff none [] none ps).chain.length ≤
        MaxHeapTuplesPerPage) := by
  set w := walkLoop ctx page rootoff fuel rootoff none [] none ps with hwd
  have hmem : ∀ x ∈ w.chain.map Prod.fst, x ∈ Finset.Icc 1 page.maxoff := by
    intro x hx
    rcases List.mem_map.mp hx with ⟨y, hy, rfl⟩
    have := walkLoop_chain_offsets ctx page rootoff fuel rootoff none [] none
      ps (by intro z hz; cases hz) y hy
    simpa [Finset.mem_Icc] using this
  have hsub : (w.chain.map Prod.fst).toFinset ⊆ Finset.Icc 1 page.maxoff := by
    intro x hx
    exact hmem x (List.mem_toFinset.mp hx)
  have hcard := Finset.card_le_card hsub
  rw [List.toFinset_card_of_nodup hnodup] at hcard
  simp only [List.length_map, Nat.card_Icc] at hcard
  constructor
  · omega
  · intro h; omega

/-- Corrupted two-slot page whose tuples form a ctid cycle with matching
xmin/xmax pairs. -/
def pageC9x : Page := ⟨[
  .normal (mkTup 5 6 2 false false true false),
  .normal (mkTup 6 5 1 false false true false)]⟩

/-- C9 counterexample: on the cyclic two-slot page the walk accumulates 300
members — far beyond both the page's 2 slots and `MaxHeapTuplesPerPage` —
and is still running (`noFuel`, the C loop has no bound check and keeps
writing past the fixed-size `chainitems` array) rather than stopping or
aborting the pass. -/
theorem C9_counterexample :
    (walkLoop ctxAllDead pageC9x 1 300 1 none [] none
      PruneState.init).chain.length = 300 ∧
    (walkLoop ctxAllDead pageC9x 1 300 1 none [] none
      PruneState.init).status = .noFuel ∧
    MaxHeapTuplesPerPage < 300 ∧ pageC9x.maxoff = 2 := by
  refine ⟨by decide, by decide, by decide, by decide⟩

theorem C9_witness :
    ((walkLoop ctxAllDead pageC2x 1 10 1 none [] none
      PruneState.init).chain.map Prod.fst).Nodup ∧
    (walkLoop ctxAllDead pageC2x 1 10 1 none [] none
      PruneState.init).chain.length ≤ pageC2x.maxoff ∧
    (pageC2x.maxoff ≤ MaxHeapTuplesPerPage →
      (walkLoop ctxAllDead pageC2x 1 10 1 none [] none
        PruneState.init).chain.length ≤ MaxHeapTuplesPerPage) :=
  ⟨by decide, C9_walk_bounded_when_acyclic ctxAllDead pageC2x 1 10
    PruneState.init (by decide)⟩

/-! ## Walk bookkeeping lemmas (claim C8) -/

/-- The walk mutates only the prune-hint field of the working state: all
transition arrays and the marked set pass through unchanged. -/
theorem walkLoop_ps_fields (ctx : PruneCtx) (page : Page) (rootoff : Nat) :
    ∀ fuel offnum priorXmax chain ld ps,
      (walkLoop ctx page rootoff fuel offnum priorXmax chain ld ps).ps.redirected
          = ps.redirected ∧
      (walkLoop ctx page rootoff fuel offnum priorXmax chain ld
          ps).ps.redirectedData = ps.redirectedData ∧
      (walkLoop ctx page rootoff fuel offnum priorXmax chain ld ps).ps.nowdead
          = ps.nowdead ∧
      (walkLoop ctx page rootoff fuel offnum priorXmax chain ld ps).ps.nowunused
          = ps.nowunused ∧
      (walkLoop ctx page rootoff fuel offnum priorXmax chain ld ps).ps.marked
          = ps.marked := by
  intro fuel
  induction fuel with
  | zero => intro offnum px chain ld ps; exact ⟨rfl, rfl, rfl, rfl, rfl⟩
  | succ n ih =>
    intro offnum px chain ld ps
    simp only [walkLoop]
    split
    · exact ⟨rfl, rfl, rfl, rfl, rfl⟩
    · split
      · exact ⟨rfl, rfl, rfl, rfl, rfl⟩
      · split
        · exact ⟨rfl, rfl, rfl, rfl, rfl⟩
        · exact ih _ _ _ _ _
        · exact ⟨rfl, rfl, rfl, rfl, rfl⟩
        · split
          · exact ⟨rfl, rfl, rfl, rfl, rfl⟩
          · split
            · split
              · exact ⟨rfl, rfl, rfl, rfl, rfl⟩
              · exact ih _ _ _ _ _
            · split
              · simp [heap_prune_record_prunable]
                split <;> (try split) <;> exact ⟨rfl, rfl, rfl, rfl, rfl⟩
              · split
                · exact ⟨rfl, rfl, rfl, rfl, rfl⟩
                · exact ⟨rfl, rfl, rfl, rfl, rfl⟩

/-- The walk only appends to the accumulated chain. -/
theorem walkLoop_chain_extend (ctx : PruneCtx) (page : Page) (rootoff : Nat) :
    ∀ fuel offnum priorXmax chain ld ps, ∃ t,
      (walkLoop ctx page rootoff fuel offnum priorXmax chain ld ps).chain =
        chain ++ t := by
  intro fuel
  induction fuel with
  | zero => intro offnum px chain ld ps; exact ⟨[], by simp [walkLoop]⟩
  | succ n ih =>
    intro offnum px chain ld ps
    simp only [walkLoop]
    split
    · exact ⟨[], by simp⟩
    · split
      · exact ⟨[], by simp⟩
      · split
        · exact ⟨[], by simp⟩
        · rename_i target rd heq
          rcases ih target px (chain ++ [(offnum,
            if offnum = rootoff then
              ItemIdIsPartialHotRedirected (page.getItem offnum)
            else if 2 ≤ chain.length then
              ItemIdIsPartialHotRedirected
                (page.getItem (chain.getD (chain.length - 2) (0, false)).1)
            else ctx.oobPhot)]) ld ps with ⟨t, ht⟩
          exact ⟨_, by rw [ht, List.append_assoc]⟩
        · exact ⟨[], by simp⟩
        · rename_i htup heqn
          split
          · exact ⟨[], by simp⟩
          · split
            · split
              · exact ⟨[(offnum, htup.partialHeapOnly ||
                  (!htup.heapOnly && htup.partialHotUpdated))], by simp⟩
              · rcases ih htup.ctid (some htup.xmax) (chain ++ [(offnum,
                  htup.partialHeapOnly ||
                    (!htup.heapOnly && htup.partialHotUpdated))])
                  (some offnum) ps with ⟨t, ht⟩
                exact ⟨_, by rw [ht, List.append_assoc]⟩
            · split
              · exact ⟨[(offnum, htup.partialHeapOnly ||
                  (!htup.heapOnly && htup.partialHotUpdated))], by simp⟩
              · split
                · exact ⟨[(offnum, htup.partialHeapOnly ||
                    (!htup.heapOnly && htup.partialHotUpdated))], by simp⟩
                · exact ⟨[(offnum, htup.partialHeapOnly ||
                    (!htup.heapOnly && htup.partialHotUpdated))], by simp⟩

/-- Every member the walk appends was unmarked when the walk began (the
marked set does not change during a walk). -/
theorem walkLoop_chain_unmarked (ctx : PruneCtx) (page : Page) (rootoff : Nat) :
    ∀ fuel offnum priorXmax chain ld ps,
      (∀ x ∈ chain, x.1 ∉ ps.marked) →
      ∀ x ∈ (walkLoop ctx page rootoff fuel offnum priorXmax chain ld ps).chain,
        x.1 ∉ ps.marked := by
  intro fuel
  induction fuel with
  | zero => intro offnum px chain ld ps hacc x hx; exact hacc x hx
  | succ n ih =>
    intro offnum px chain ld ps hacc x
    simp only [walkLoop]
    split
    · exact hacc x
    · split
      · exact hacc x
      · rename_i hm
        have hext : ∀ ph : Bool, ∀ y ∈ chain ++ [(offnum, ph)],
            y.1 ∉ ps.marked := by
          intro ph y hy
          rcases List.mem_append.mp hy with h | h
          · exact hacc y h
          · simp at h; rw [h]; exact hm
        split
        · exact hacc x
        · exact ih _ _ _ _ _ (hext _) x
        · exact hacc x
        · split
          · exact hacc x
          · split
            · split
              · exact hext _ x
              · exact ih _ _ _ _ _ (hext _) x
            · split
              · intro hx
                rcases List.mem_append.mp hx with h | h
                · exact hacc x h
                · simp at h
                  rw [h]
                  exact hm
              · split
                · exact hext _ x
                · exact hext _ x

/-- A walk that collected anything collected the starting offset first. -/
theorem walkLoop_chain_head (ctx : PruneCtx) (page : Page) (rootoff : Nat) :
    ∀ fuel offnum priorXmax ld ps,
      (walkLoop ctx page rootoff fuel offnum priorXmax [] ld ps).chain ≠ [] →
      ((walkLoop ctx page rootoff fuel offnum priorXmax [] ld
        ps).chain.getD 0 (0, false)).1 = offnum := by
  intro fuel offnum px ld ps
  cases fuel with
  | zero => intro h; exact absurd rfl h
  | succ n =>
    simp only [walkLoop]
    split
    · intro h; exact absurd rfl h
    · split
      · intro h; exact absurd rfl h
      · split
        · intro h; exact absurd rfl h
        · intro _
          rcases walkLoop_chain_extend ctx page rootoff n _ px _ ld ps with
            ⟨t, ht⟩
          rw [ht]
          simp
        · intro h; exact absurd rfl h
        · split
          · intro h; exact absurd rfl h
          · split
            · split
              · intro _; simp
              · intro _
                rcases walkLoop_chain_extend ctx page rootoff n _ _ _ _ ps with
                  ⟨t, ht⟩
                rw [ht]
                simp
            · split
              · intro _; simp
              · split
                · intro _; simp
                · intro _; simp

/-- Walking with a larger marked set only shortens the collected chain: the
chain collected over `ps2` (more marks) is a prefix of the chain collected
over `ps1` (fewer marks), all other inputs equal. -/
theorem walkLoop_marked_prefix (ctx : PruneCtx) (page : Page) (rootoff : Nat) :
    ∀ fuel offnum priorXmax chain ld ps1 ps2,
      ps1.marked ⊆ ps2.marked → ∃ t,
      (walkLoop ctx page rootoff fuel offnum priorXmax chain ld ps1).chain =
        (walkLoop ctx page rootoff fuel offnum priorXmax chain ld ps2).chain
          ++ t := by
  intro fuel
  induction fuel with
  | zero => intro offnum px chain ld ps1 ps2 _; exact ⟨[], by simp [walkLoop]⟩
  | succ n ih =>
    intro offnum px chain ld ps1 ps2 hsub
    by_cases hr : offnum < 1 ∨ page.maxoff < offnum
    · exact ⟨[], by simp only [walkLoop]; rw [if_pos hr, if_pos hr]; simp⟩
    · by_cases hm2 : offnum ∈ ps2.marked
      · have h2 : (walkLoop ctx page rootoff (n + 1) offnum px chain ld
            ps2).chain = chain := by
          simp only [walkLoop]; rw [if_neg hr, if_pos hm2]
        rw [h2]
        exact walkLoop_chain_extend ctx page rootoff (n + 1) offnum px chain
          ld ps1
      · have hm1 : offnum ∉ ps1.marked := fun h => hm2 (hsub h)
        simp only [walkLoop]
        rw [if_neg hr, if_neg hr, if_neg hm1, if_neg hm2]
        rcases heq : page.getItem offnum with _ | htup | ⟨target, rd⟩ | _
        all_goals simp only [heq]
        · exact ⟨[], by simp⟩
        · by_cases hpx : px.isSome ∧ px ≠ some htup.xmin
          · rw [if_pos hpx, if_pos hpx]
            exact ⟨[], by simp⟩
          · rw [if_neg hpx, if_neg hpx]
            by_cases hv0 : ctx.vis htup = 0
            · rw [if_pos hv0, if_pos hv0]
              by_cases hhu : htup.hotUpdated = false ∧
                  htup.partialHotUpdated = false
              · rw [if_pos (by simp [hhu.1, hhu.2]),
                  if_pos (by simp [hhu.1, hhu.2])]
                exact ⟨[], by simp⟩
              · rw [if_neg (by simpa using hhu), if_neg (by simpa using hhu)]
                exact ih _ _ _ _ ps1 ps2 hsub
            · rw [if_neg hv0, if_neg hv0]
              by_cases hv24 : ctx.vis htup = 2 ∨ ctx.vis htup = 4
              · rw [if_pos hv24, if_pos hv24]
                exact ⟨[], by simp⟩
              · rw [if_neg hv24, if_neg hv24]
                by_cases hv13 : ctx.vis htup = 1 ∨ ctx.vis htup = 3
                · rw [if_pos hv13, if_pos hv13]
                  exact ⟨[], by simp⟩
                · rw [if_neg hv13, if_neg hv13]
                  exact ⟨[], by simp⟩
        · exact ih _ _ _ _ ps1 ps2 hsub
        · exact ⟨[], by simp⟩

/-- The multiset of slot offsets recorded as transition sources (the first
offset of each redirected / redirected-with-data pair, plus the dead and
unused arrays). -/
def planFroms (ps : PruneState) : Multiset Nat :=
  (ps.redirected.map Prod.fst : Multiset Nat) +
    (ps.redirectedData.map (fun e => e.1) : Multiset Nat) +
    (ps.nowdead : Multiset Nat) + (ps.nowunused : Multiset Nat)

/-- The multiset of every offset entered anywhere in the transition arrays:
sources and redirect targets alike (the C arrays `redirected[]` and
`redirected_data[]` store both halves of each pair). -/
def planEntries (ps : PruneState) : Multiset Nat :=
  planFroms ps + (ps.redirected.map Prod.snd : Multiset Nat) +
    (ps.redirectedData.map (fun e => e.2.1) : Multiset Nat)

theorem planFroms_record_dead (ps : PruneState) (x : Nat) :
    planFroms (heap_prune_record_dead ps x) = planFroms ps + {x} := by
  simp only [planFroms, heap_prune_record_dead]
  refine Multiset.ext.mpr fun a => ?_
  by_cases h : a = x <;>
    simp [h, List.count_append, List.count_cons] <;> omega

theorem planFroms_record_unused (ps : PruneState) (x : Nat) :
    planFroms (heap_prune_record_unused ps x) = planFroms ps + {x} := by
  simp only [planFroms, heap_prune_record_unused]
  refine Multiset.ext.mpr fun a => ?_
  by_cases h : a = x <;>
    simp [h, List.count_append, List.count_cons] <;> omega

theorem planFroms_record_redirect (ps : PruneState) (x y : Nat) :
    planFroms (heap_prune_record_redirect ps x y) = planFroms ps + {x} := by
  simp only [planFroms, heap_prune_record_redirect]
  refine Multiset.ext.mpr fun a => ?_
  by_cases h : a = x <;>
    simp [h, List.count_append, List.count_cons] <;> omega

theorem planFroms_record_rwd (ps : PruneState) (x y natts : Nat)
    (data : Finset Nat) :
    planFroms (heap_prune_record_redirect_with_data ps x y natts data) =
      planFroms ps + {x} := by
  simp only [planFroms, heap_prune_record_redirect_with_data]
  refine Multiset.ext.mpr fun a => ?_
  by_cases h : a = x <;>
    simp [h, List.count_append, List.count_cons] <;> omega

/-- Every interior-loop iteration records exactly one source slot — the
current chain member — and marks it; previous marks survive. -/
theorem collapseStep_froms (ctx : PruneCtx) (page : Page)
    (chain : List (Nat × Bool)) (lastoff i : Nat) (st : CollapseSt) :
    planFroms (collapseStep ctx page chain lastoff i st).ps =
      planFroms st.ps + {(chain.getD i (0, false)).1} ∧
    st.ps.marked ⊆ (collapseStep ctx page chain lastoff i st).ps.marked ∧
    (chain.getD i (0, false)).1 ∈
      (collapseStep ctx page chain lastoff i st).ps.marked := by
  unfold collapseStep
  by_cases h1 : (st.chain_dead ||
      (!st.has_phot && !(chain.getD i (0, false)).2)) = true
  · rw [if_pos h1]
    by_cases h2 : (chain.getD i (0, false)).2 = true
    · rw [if_pos h2]
      exact ⟨planFroms_record_dead st.ps _, Finset.subset_insert _ _,
        Finset.mem_insert_self _ _⟩
    · rw [if_neg h2]
      exact ⟨planFroms_record_unused st.ps _, Finset.subset_insert _ _,
        Finset.mem_insert_self _ _⟩
  · rw [if_neg h1]
    simp only []
    by_cases hm : GetModifiedColumnsBitmap ctx page
        (chain.getD (i - 1) (0, false)).1 (chain.getD i (0, false)).1
        (chain.getD i (0, false)).2
        (if st.interesting = ∅ then Finset.Icc 8 (ctx.natts + 7)
         else st.interesting) = ∅
    · rw [if_pos hm]
      exact ⟨planFroms_record_unused st.ps _, Finset.subset_insert _ _,
        Finset.mem_insert_self _ _⟩
    · rw [if_neg hm]
      by_cases h3 : ((chain.getD i (0, false)).2 && !st.has_phot) = true
      · rw [if_pos h3]
        exact ⟨planFroms_record_redirect st.ps _ _,
          (Finset.subset_insert _ _).trans (Finset.subset_insert _ _),
          Finset.mem_insert_of_mem (Finset.mem_insert_self _ _)⟩
      · rw [if_neg h3]
        by_cases h4 : (!(chain.getD i (0, false)).2 && st.has_phot) = true
        · rw [if_pos h4]
          exact ⟨planFroms_record_unused st.ps _, Finset.subset_insert _ _,
            Finset.mem_insert_self _ _⟩
        · rw [if_neg h4]
          by_cases h5 : GetModifiedColumnsBitmap ctx page
              (chain.getD (i - 1) (0, false)).1 (chain.getD i (0, false)).1
              (chain.getD i (0, false)).2
              (if st.interesting = ∅ then Finset.Icc 8 (ctx.natts + 7)
               else st.interesting) ⊆ st.modified_attrs
          · rw [if_pos h5]
            exact ⟨planFroms_record_dead st.ps _, Finset.subset_insert _ _,
              Finset.mem_insert_self _ _⟩
          · rw [if_neg h5]
            exact ⟨planFroms_record_rwd st.ps _ _ _ _,
              (Finset.subset_insert _ _).trans (Finset.subset_insert _ _),
              Finset.mem_insert_of_mem (Finset.mem_insert_self _ _)⟩

/-- The list of from-offsets handled by the interior collapse loop running
indices `i, i - 1, ..., 1` (in push order `1, ..., i`). -/
def interiorOffs (chain : List (Nat × Bool)) (i : Nat) : List Nat :=
  (List.range i).map (fun j => (chain.getD (j + 1) (0, false)).1)

/-- The interior collapse loop adds exactly the interior offsets to the
planned from-multiset, only grows the marked set, and marks each of them. -/
theorem collapseLoop_froms (ctx : PruneCtx) (page : Page)
    (chain : List (Nat × Bool)) (lastoff : Nat) :
    ∀ (i : Nat) (st : CollapseSt),
    planFroms (collapseLoop ctx page chain lastoff i st).ps =
      planFroms st.ps + Multiset.ofList (interiorOffs chain i) ∧
    st.ps.marked ⊆ (collapseLoop ctx page chain lastoff i st).ps.marked ∧
    ∀ x ∈ interiorOffs chain i,
      x ∈ (collapseLoop ctx page chain lastoff i st).ps.marked := by
  intro i
  induction i with
  | zero =>
    intro st
    refine ⟨by simp [collapseLoop, interiorOffs], by simp [collapseLoop], ?_⟩
    intro x hx
    simp [interiorOffs] at hx
  | succ n ih =>
    intro st
    have hstep := collapseStep_froms ctx page chain lastoff (n + 1) st
    have hih := ih (collapseStep ctx page chain lastoff (n + 1) st)
    have hloop : collapseLoop ctx page chain lastoff (n + 1) st =
        collapseLoop ctx page chain lastoff n
          (collapseStep ctx page chain lastoff (n + 1) st) := rfl
    have hoffs : interiorOffs chain (n + 1) =
        interiorOffs chain n ++ [(chain.getD (n + 1) (0, false)).1] := by
      simp [interiorOffs, List.range_succ]
    refine ⟨?_, ?_, ?_⟩
    · rw [hloop, hih.1, hstep.1, hoffs, ← Multiset.coe_add]
      simp only [Multiset.coe_singleton]
      abel
    · rw [hloop]
      exact hstep.2.1.trans hih.2.1
    · intro x hx
      rw [hoffs] at hx
      rcases List.mem_append.mp hx with hx | hx
      · rw [hloop]
        exact hih.2.2 x hx
      · rw [List.mem_singleton] at hx
        rw [hloop, hx]
        exact hih.2.1 hstep.2.2

/-- The walk never shrinks the accumulated chain. -/
theorem walkLoop_chain_le (ctx : PruneCtx) (page : Page) (rootoff : Nat)
    (fuel offnum : Nat) (priorXmax : Option Nat) (chain : List (Nat × Bool))
    (ld : Option Nat) (ps : PruneState) :
    chain.length ≤
      (walkLoop ctx page rootoff fuel offnum priorXmax chain ld ps).chain.length := by
  obtain ⟨t, ht⟩ := walkLoop_chain_extend ctx page rootoff fuel offnum
    priorXmax chain ld ps
  rw [ht]
  simp

/-- Either the walk leaves `latestdead` untouched, or it strictly grows the
chain: `latestdead` is only ever set together with a chain append. -/
theorem walkLoop_ld_or_grow (ctx : PruneCtx) (page : Page) (rootoff : Nat) :
    ∀ (fuel offnum : Nat) (priorXmax : Option Nat)
      (chain : List (Nat × Bool)) (ld : Option Nat) (ps : PruneState),
      (walkLoop ctx page rootoff fuel offnum priorXmax chain ld ps).latestdead
          = ld ∨
      chain.length <
        (walkLoop ctx page rootoff fuel offnum priorXmax chain ld
          ps).chain.length := by
  intro fuel offnum px chain ld ps
  cases fuel with
  | zero => exact Or.inl rfl
  | succ n =>
    simp only [walkLoop]
    split
    · exact Or.inl rfl
    · split
      · exact Or.inl rfl
      · split
        · exact Or.inl rfl
        · refine Or.inr (lt_of_lt_of_le ?_
            (walkLoop_chain_le ctx page rootoff n _ _ _ _ _))
          simp
        · exact Or.inl rfl
        · split
          · exact Or.inl rfl
          · split
            · split
              · exact Or.inr (by simp)
              · refine Or.inr (lt_of_lt_of_le ?_
                  (walkLoop_chain_le ctx page rootoff n _ _ _ _ _))
                simp
            · split
              · exact Or.inl rfl
              · split
                · exact Or.inl rfl
                · exact Or.inl rfl

/-- Tail evaluation and the planned from-multiset: the whole-chain-dead case
records exactly the tail offset; otherwise no transition is recorded. -/
theorem collapseInit_froms (ctx : PruneCtx) (page : Page)
    (chain : List (Nat × Bool)) (lastoff ldoff : Nat) (ps : PruneState) :
    (lastoff = ldoff →
      planFroms (collapseInit ctx page chain lastoff ldoff ps).ps =
        planFroms ps + {lastoff} ∧
      ps.marked ⊆ (collapseInit ctx page chain lastoff ldoff ps).ps.marked ∧
      lastoff ∈ (collapseInit ctx page chain lastoff ldoff ps).ps.marked) ∧
    (lastoff ≠ ldoff →
      (collapseInit ctx page chain lastoff ldoff ps).ps = ps) := by
  constructor
  · intro h
    unfold collapseInit
    rw [if_pos h]
    by_cases h2 : ((chain.length - 1 == 0) ||
        (chain.getD (chain.length - 1) (0, false)).2) = true
    · rw [if_pos h2]
      exact ⟨planFroms_record_dead ps _, Finset.subset_insert _ _,
        Finset.mem_insert_self _ _⟩
    · rw [if_neg h2]
      exact ⟨planFroms_record_unused ps _, Finset.subset_insert _ _,
        Finset.mem_insert_self _ _⟩
  · intro h
    unfold collapseInit
    rw [if_neg h]
    by_cases h2 : ((chain.getD (chain.length - 1) (0, false)).2 &&
        decide (1 < chain.length)) = true
    · rw [if_pos h2]
    · rw [if_neg h2]

/-- Root handling and the planned from-multiset: a chain longer than one
item records exactly the root offset; a one-item chain records nothing. -/
theorem collapseFinish_froms (ctx : PruneCtx) (page : Page)
    (rootoff lastoff nchain : Nat) (st : CollapseSt) :
    (1 < nchain →
      planFroms (collapseFinish ctx page rootoff lastoff nchain st).2 =
        planFroms st.ps + {rootoff} ∧
      st.ps.marked ⊆
        (collapseFinish ctx page rootoff lastoff nchain st).2.marked ∧
      rootoff ∈ (collapseFinish ctx page rootoff lastoff nchain st).2.marked) ∧
    (¬ 1 < nchain →
      (collapseFinish ctx page rootoff lastoff nchain st).2 = st.ps) := by
  constructor
  · intro h
    unfold collapseFinish
    rw [if_pos h]
    by_cases h2 : st.chain_dead = true
    · rw [if_pos h2]
      exact ⟨planFroms_record_dead st.ps _, Finset.subset_insert _ _,
        Finset.mem_insert_self _ _⟩
    · rw [if_neg h2]
      by_cases h3 : st.keyitems ≠ []
      · rw [if_pos h3]
        exact ⟨planFroms_record_rwd st.ps _ _ _ _,
          (Finset.subset_insert _ _).trans (Finset.subset_insert _ _),
          Finset.mem_insert_of_mem (Finset.mem_insert_self _ _)⟩
      · rw [if_neg h3]
        exact ⟨planFroms_record_redirect st.ps _ _,
          (Finset.subset_insert _ _).trans (Finset.subset_insert _ _),
          Finset.mem_insert_of_mem (Finset.mem_insert_self _ _)⟩
  · intro h
    unfold collapseFinish
    rw [if_neg h]

/-- The from-offsets recorded by the dead-prefix collapse of a chain: the
tail (when the chain is dead up to its end), the interior items, and the
root (when the chain has more than one item). -/
def chainFroms (chain : List (Nat × Bool)) (rootoff ldoff : Nat) : List Nat :=
  (if (chain.getD (chain.length - 1) (0, false)).1 = ldoff
   then [(chain.getD (chain.length - 1) (0, false)).1] else []) ++
  interiorOffs chain (chain.length - 2) ++
  (if 1 < chain.length then [rootoff] else [])

/-- The collapse adds exactly `chainFroms` to the planned from-multiset,
only grows the marked set, and marks every recorded from-offset. -/
theorem collapseChain_froms (ctx : PruneCtx) (page : Page)
    (rootoff : Nat) (chain : List (Nat × Bool)) (ldoff : Nat)
    (ps : PruneState) :
    planFroms (collapseChain ctx page rootoff chain ldoff ps).2 =
      planFroms ps + Multiset.ofList (chainFroms chain rootoff ldoff) ∧
    ps.marked ⊆ (collapseChain ctx page rootoff chain ldoff ps).2.marked ∧
    ∀ x ∈ chainFroms chain rootoff ldoff,
      x ∈ (collapseChain ctx page rootoff chain ldoff ps).2.marked := by
  have hini := collapseInit_froms ctx page chain
    (chain.getD (chain.length - 1) (0, false)).1 ldoff ps
  have hloop := collapseLoop_froms ctx page chain
    (chain.getD (chain.length - 1) (0, false)).1 (chain.length - 2)
    (collapseInit ctx page chain
      (chain.getD (chain.length - 1) (0, false)).1 ldoff ps)
  have hfin := collapseFinish_froms ctx page rootoff
    (chain.getD (chain.length - 1) (0, false)).1 chain.length
    (collapseLoop ctx page chain
      (chain.getD (chain.length - 1) (0, false)).1 (chain.length - 2)
      (collapseInit ctx page chain
        (chain.getD (chain.length - 1) (0, false)).1 ldoff ps))
  have hcc : collapseChain ctx page rootoff chain ldoff ps =
      collapseFinish ctx page rootoff
        (chain.getD (chain.length - 1) (0, false)).1 chain.length
        (collapseLoop ctx page chain
          (chain.getD (chain.length - 1) (0, false)).1 (chain.length - 2)
          (collapseInit ctx page chain
            (chain.getD (chain.length - 1) (0, false)).1 ldoff ps)) := rfl
  by_cases h0 : (chain.getD (chain.length - 1) (0, false)).1 = ldoff
  · have hi := hini.1 h0
    by_cases h1 : 1 < chain.length
    · have hf := hfin.1 h1
      refine ⟨?_, ?_, ?_⟩
      · rw [hcc, hf.1, hloop.1, hi.1]
        simp only [chainFroms, if_pos h0, if_pos h1, ← Multiset.coe_add]
        simp only [Multiset.coe_singleton]
        abel
      · rw [hcc]
        exact (hi.2.1.trans hloop.2.1).trans hf.2.1
      · intro x hx
        simp only [chainFroms, if_pos h0, if_pos h1, List.mem_append,
          List.mem_singleton] at hx
        rw [hcc]
        rcases hx with (hx | hx) | hx
        · rw [hx]
          exact hf.2.1 (hloop.2.1 hi.2.2)
        · exact hf.2.1 (hloop.2.2 x hx)
        · rw [hx]
          exact hf.2.2
    · have hf := hfin.2 h1
      refine ⟨?_, ?_, ?_⟩
      · rw [hcc, hf, hloop.1, hi.1]
        simp only [chainFroms, if_pos h0, if_neg h1, ← Multiset.coe_add]
        simp only [Multiset.coe_singleton]
        abel
      · rw [hcc, hf]
        exact hi.2.1.trans hloop.2.1
      · intro x hx
        simp only [chainFroms, if_pos h0, if_neg h1, List.mem_append,
          List.mem_singleton] at hx
        rw [hcc, hf]
        rcases hx with (hx | hx) | hx
        · rw [hx]
          exact hloop.2.1 hi.2.2
        · exact hloop.2.2 x hx
        · exact absurd hx (by simp)
  · have hi := hini.2 h0
    by_cases h1 : 1 < chain.length
    · have hf := hfin.1 h1
      refine ⟨?_, ?_, ?_⟩
      · rw [hcc, hf.1, hloop.1, hi]
        simp only [chainFroms, if_neg h0, if_pos h1, ← Multiset.coe_add]
        simp only [Multiset.coe_singleton]
        abel
      · rw [hcc]
        have : ps.marked =
            (collapseInit ctx page chain
              (chain.getD (chain.length - 1) (0, false)).1 ldoff
              ps).ps.marked := by rw [hi]
        rw [this]
        exact hloop.2.1.trans hf.2.1
      · intro x hx
        simp only [chainFroms, if_neg h0, if_pos h1, List.mem_append,
          List.mem_singleton] at hx
        rw [hcc]
        rcases hx with (hx | hx) | hx
        · exact absurd hx (by simp)
        · exact hf.2.1 (hloop.2.2 x hx)
        · rw [hx]
          exact hf.2.2
    · have hf := hfin.2 h1
      refine ⟨?_, ?_, ?_⟩
      · rw [hcc, hf, hloop.1, hi]
        simp only [chainFroms, if_neg h0, if_neg h1, ← Multiset.coe_add]
        simp
      · rw [hcc, hf]
        have : ps.marked =
            (collapseInit ctx page chain
              (chain.getD (chain.length - 1) (0, false)).1 ldoff
              ps).ps.marked := by rw [hi]
        rw [this]
        exact hloop.2.1
      · intro x hx
        simp only [chainFroms, if_neg h0, if_neg h1, List.mem_append,
          List.mem_singleton] at hx
        rw [hcc, hf]
        rcases hx with (hx | hx) | hx
        · exact absurd hx (by simp)
        · exact hloop.2.2 x hx
        · exact absurd hx (by simp)

/-- Every offset recorded by the collapse is the offset of some chain
member (the root via the chain's first entry). -/
theorem chainFroms_mem_chain (chain : List (Nat × Bool)) (rootoff ldoff : Nat)
    (hfirst : (chain.getD 0 (0, false)).1 = rootoff) (hne : chain ≠ [])
    (x : Nat) (hx : x ∈ chainFroms chain rootoff ldoff) :
    x ∈ chain.map Prod.fst := by
  have hlen : 0 < chain.length := List.length_pos.mpr hne
  simp only [chainFroms, List.mem_append] at hx
  rcases hx with (hx | hx) | hx
  · split at hx
    · rw [List.mem_singleton] at hx
      rw [hx]
      rw [List.getD_eq_getElem _ _ (by omega : chain.length - 1 < chain.length)]
      exact List.mem_map_of_mem Prod.fst (List.getElem_mem _)
    · exact absurd hx (by simp)
  · simp only [interiorOffs, List.mem_map, List.mem_range] at hx
    obtain ⟨j, hj, hjx⟩ := hx
    rw [← hjx]
    rw [List.getD_eq_getElem _ _ (by omega : j + 1 < chain.length)]
    exact List.mem_map_of_mem Prod.fst (List.getElem_mem _)
  · split at hx
    · rw [List.mem_singleton] at hx
      rw [hx, ← hfirst]
      rw [List.getD_eq_getElem _ _ hlen]
      exact List.mem_map_of_mem Prod.fst (List.getElem_mem _)
    · exact absurd hx (by simp)

/-- For a duplicate-free chain, the offsets recorded by the collapse are
pairwise distinct: tail, interior items and root sit at distinct chain
positions. -/
theorem chainFroms_nodup (chain : List (Nat × Bool)) (rootoff ldoff : Nat)
    (hnodup : (chain.map Prod.fst).Nodup)
    (hfirst : (chain.getD 0 (0, false)).1 = rootoff) (hne : chain ≠ []) :
    (chainFroms chain rootoff ldoff).Nodup := by
  have hlen : 0 < chain.length := List.length_pos.mpr hne
  have hint : (interiorOffs chain (chain.length - 2)).Nodup := by
    refine List.Nodup.map_on ?_ (List.nodup_range _)
    intro a ha b hb hab
    rw [List.mem_range] at ha hb
    by_contra hne2
    exact chain_getD_ne chain hnodup (a + 1) (b + 1) (by omega) (by omega)
      (by omega) hab
  have hint_mem : ∀ y ∈ interiorOffs chain (chain.length - 2),
      ∃ j, j ∈ List.range (chain.length - 2) ∧
        y = (chain.getD (j + 1) (0, false)).1 := by
    intro y hy
    simp only [interiorOffs, List.mem_map] at hy
    obtain ⟨j, hj, hjy⟩ := hy
    exact ⟨j, hj, hjy.symm⟩
  rw [chainFroms, List.nodup_append, List.nodup_append]
  refine ⟨⟨?_, hint, ?_⟩, ?_, ?_⟩
  · split
    · exact List.nodup_singleton _
    · exact List.nodup_nil
  · split
    · intro y hy hy2
      rw [List.mem_singleton] at hy
      obtain ⟨j, hj, hjy⟩ := hint_mem _ hy2
      rw [List.mem_range] at hj
      exact chain_getD_ne chain hnodup (chain.length - 1) (j + 1)
        (by omega) (by omega) (by omega) (hy.symm.trans hjy)
    · intro y hy hy2
      exact absurd hy (by simp)
  · split
    · exact List.nodup_singleton _
    · exact List.nodup_nil
  · intro y hy hy2
    split at hy2
    · rw [List.mem_singleton] at hy2
      rename_i hcond
      rcases List.mem_append.mp hy with h | h
      · split at h
        · rw [List.mem_singleton] at h
          rw [hy2, ← hfirst] at h
          exact chain_getD_ne chain hnodup 0 (chain.length - 1) hlen
            (by omega) (by omega) h
        · exact absurd h (by simp)
      · obtain ⟨j, hj, hjy⟩ := hint_mem _ h
        rw [List.mem_range] at hj
        rw [hy2, ← hfirst] at hjy
        exact chain_getD_ne chain hnodup 0 (j + 1) hlen (by omega) (by omega)
          hjy
    · exact absurd hy2 (by simp)

/-- The chain walk records no transitions (it only updates the prunability
hint): planned from-multiset and marked set are untouched. -/
theorem walkLoop_planFroms (ctx : PruneCtx) (page : Page)
    (rootoff fuel offnum : Nat) (priorXmax : Option Nat)
    (chain : List (Nat × Bool)) (ld : Option Nat) (ps : PruneState) :
    planFroms (walkLoop ctx page rootoff fuel offnum priorXmax chain ld
      ps).ps = planFroms ps ∧
    (walkLoop ctx page rootoff fuel offnum priorXmax chain ld ps).ps.marked
      = ps.marked := by
  obtain ⟨h1, h2, h3, h4, h5⟩ := walkLoop_ps_fields ctx page rootoff fuel
    offnum priorXmax chain ld ps
  exact ⟨by simp [planFroms, h1, h2, h3, h4], h5⟩

theorem heap_prune_chain_froms (ctx : PruneCtx) (page : Page)
    (rootoff fuel : Nat) (ps : PruneState) (nd : Nat) (ps1 : PruneState)
    (hok : heap_prune_chain ctx page rootoff fuel ps = .ok (nd, ps1))
    (hroot : rootoff ∉ ps.marked)
    (hnodup : ((walkLoop ctx page rootoff fuel rootoff none [] none
      ps).chain.map Prod.fst).Nodup) :
    ∃ F : List Nat,
      planFroms ps1 = planFroms ps + Multiset.ofList F ∧
      F.Nodup ∧
      (∀ x ∈ F, x ∉ ps.marked) ∧
      ps.marked ⊆ ps1.marked ∧
      (∀ x ∈ F, x ∈ ps1.marked) := by
  have hw := walkLoop_planFroms ctx page rootoff fuel rootoff none [] none ps
  unfold heap_prune_chain at hok
  simp only [] at hok
  split at hok
  · -- root is a normal tuple
    split at hok
    · -- heap-only or partial-heap-only root: the solitary branch
      split at hok
      · split at hok
        · -- solitary, heap-only: record unused
          simp only [Except.ok.injEq, Prod.mk.injEq] at hok
          obtain ⟨hnd, hps1⟩ := hok
          subst hps1
          refine ⟨[rootoff], ?_, List.nodup_singleton _, ?_, ?_, ?_⟩
          · rw [planFroms_record_unused]
            simp
          · intro x hx
            rw [List.mem_singleton] at hx
            rw [hx]
            exact hroot
          · exact Finset.subset_insert _ _
          · intro x hx
            rw [List.mem_singleton] at hx
            rw [hx]
            exact Finset.mem_insert_self _ _
        · -- solitary, partial-heap-only: record dead
          simp only [Except.ok.injEq, Prod.mk.injEq] at hok
          obtain ⟨hnd, hps1⟩ := hok
          subst hps1
          refine ⟨[rootoff], ?_, List.nodup_singleton _, ?_, ?_, ?_⟩
          · rw [planFroms_record_dead]
            simp
          · intro x hx
            rw [List.mem_singleton] at hx
            rw [hx]
            exact hroot
          · exact Finset.subset_insert _ _
          · intro x hx
            rw [List.mem_singleton] at hx
            rw [hx]
            exact Finset.mem_insert_self _ _
      · -- solitary branch, tuple not reclaimable: nothing recorded
        simp only [Except.ok.injEq, Prod.mk.injEq] at hok
        obtain ⟨hnd, hps1⟩ := hok
        subst hps1
        exact ⟨[], by simp, List.nodup_nil, by simp, Finset.Subset.refl _,
          by simp⟩
    · -- root not heap-only: the walk part
      split at hok
      · exact absurd hok (by simp)
      · exact absurd hok (by simp)
      · split at hok
        · -- a dead prefix was found: collapse
          rename_i ldoff heq
          simp only [Except.ok.injEq] at hok
          have hps1 : ps1 =
              (collapseChain ctx page rootoff
                (walkLoop ctx page rootoff fuel rootoff none [] none ps).chain
                ldoff
                (walkLoop ctx page rootoff fuel rootoff none [] none
                  ps).ps).2 := by
            rw [hok]
          have hne : (walkLoop ctx page rootoff fuel rootoff none [] none
              ps).chain ≠ [] := by
            rcases walkLoop_ld_or_grow ctx page rootoff fuel rootoff none []
              none ps with h | h
            · rw [heq] at h
              exact absurd h (by simp)
            · intro hc
              rw [hc] at h
              simp at h
          have hfirst := walkLoop_chain_head ctx page rootoff fuel rootoff
            none none ps hne
          have hcf := collapseChain_froms ctx page rootoff
            (walkLoop ctx page rootoff fuel rootoff none [] none ps).chain
            ldoff (walkLoop ctx page rootoff fuel rootoff none [] none ps).ps
          refine ⟨chainFroms
            (walkLoop ctx page rootoff fuel rootoff none [] none ps).chain
            rootoff ldoff, ?_, ?_, ?_, ?_, ?_⟩
          · rw [hps1, hcf.1, hw.1]
          · exact chainFroms_nodup _ _ _ hnodup hfirst hne
          · intro x hx
            have hxc := chainFroms_mem_chain _ _ _ hfirst hne x hx
            rw [List.mem_map] at hxc
            obtain ⟨pr, hpr, hpr2⟩ := hxc
            have hun := walkLoop_chain_unmarked ctx page rootoff fuel rootoff
              none [] none ps (by intro y hy; simp at hy) pr hpr
            rw [← hpr2]
            exact hun
          · rw [hps1]
            exact hw.2 ▸ hcf.2.1
          · intro x hx
            rw [hps1]
            exact hcf.2.2 x hx
        · -- no dead prefix
          split at hok
          · -- dangling redirect: record the root dead
            simp only [Except.ok.injEq, Prod.mk.injEq] at hok
            obtain ⟨hnd, hps1⟩ := hok
            subst hps1
            refine ⟨[rootoff], ?_, List.nodup_singleton _, ?_, ?_, ?_⟩
            · rw [planFroms_record_dead, hw.1]
              simp
            · intro x hx
              rw [List.mem_singleton] at hx
              rw [hx]
              exact hroot
            · rw [heap_prune_record_dead]
              exact hw.2 ▸ Finset.subset_insert _ _
            · intro x hx
              rw [List.mem_singleton] at hx
              rw [hx]
              exact Finset.mem_insert_self _ _
          · -- nothing to do
            simp only [Except.ok.injEq, Prod.mk.injEq] at hok
            obtain ⟨hnd, hps1⟩ := hok
            subst hps1
            refine ⟨[], ?_, List.nodup_nil, by simp, ?_, by simp⟩
            · rw [hw.1]
              simp
            · rw [hw.2]
  · -- root not a normal tuple: the walk part
    split at hok
    · exact absurd hok (by simp)
    · exact absurd hok (by simp)
    · split at hok
      · rename_i ldoff heq
        simp only [Except.ok.injEq] at hok
        have hps1 : ps1 =
            (collapseChain ctx page rootoff
              (walkLoop ctx page rootoff fuel rootoff none [] none ps).chain
              ldoff
              (walkLoop ctx page rootoff fuel rootoff none [] none
                ps).ps).2 := by
          rw [hok]
        have hne : (walkLoop ctx page rootoff fuel rootoff none [] none
            ps).chain ≠ [] := by
          rcases walkLoop_ld_or_grow ctx page rootoff fuel rootoff none []
            none ps with h | h
          · rw [heq] at h
            exact absurd h (by simp)
          · intro hc
            rw [hc] at h
            simp at h
        have hfirst := walkLoop_chain_head ctx page rootoff fuel rootoff
          none none ps hne
        have hcf := collapseChain_froms ctx page rootoff
          (walkLoop ctx page rootoff fuel rootoff none [] none ps).chain
          ldoff (walkLoop ctx page rootoff fuel rootoff none [] none ps).ps
        refine ⟨chainFroms
          (walkLoop ctx page rootoff fuel rootoff none [] none ps).chain
          rootoff ldoff, ?_, ?_, ?_, ?_, ?_⟩
        · rw [hps1, hcf.1, hw.1]
        · exact chainFroms_nodup _ _ _ hnodup hfirst hne
        · intro x hx
          have hxc := chainFroms_mem_chain _ _ _ hfirst hne x hx
          rw [List.mem_map] at hxc
          obtain ⟨pr, hpr, hpr2⟩ := hxc
          have hun := walkLoop_chain_unmarked ctx page rootoff fuel rootoff
            none [] none ps (by intro y hy; simp at hy) pr hpr
          rw [← hpr2]
          exact hun
        · rw [hps1]
          exact hw.2 ▸ hcf.2.1
        · intro x hx
          rw [hps1]
          exact hcf.2.2 x hx
      · split at hok
        · simp only [Except.ok.injEq, Prod.mk.injEq] at hok
          obtain ⟨hnd, hps1⟩ := hok
          subst hps1
          refine ⟨[rootoff], ?_, List.nodup_singleton _, ?_, ?_, ?_⟩
          · rw [planFroms_record_dead, hw.1]
            simp
          · intro x hx
            rw [List.mem_singleton] at hx
            rw [hx]
            exact hroot
          · rw [heap_prune_record_dead]
            exact hw.2 ▸ Finset.subset_insert _ _
          · intro x hx
            rw [List.mem_singleton] at hx
            rw [hx]
            exact Finset.mem_insert_self _ _
        · simp only [Except.ok.injEq, Prod.mk.injEq] at hok
          obtain ⟨hnd, hps1⟩ := hok
          subst hps1
          refine ⟨[], ?_, List.nodup_nil, by simp, ?_, by simp⟩
          · rw [hw.1]
            simp
          · rw [hw.2]

/-- Page-scan invariant: provided every chain walk of the page (from the
initial prune state) collects duplicate-free offsets, the scan keeps the
planned from-multiset duplicate-free and covered by the marked set. -/
theorem prunePageFrom_froms (ctx : PruneCtx) (page : Page) (fuel : Nat)
    (hW : ∀ r, ((walkLoop ctx page r fuel r none [] none
      PruneState.init).chain.map Prod.fst).Nodup) :
    ∀ (cnt offnum nd : Nat) (ps : PruneState) (ndr : Nat) (ps1 : PruneState),
      prunePageFrom ctx page fuel cnt offnum nd ps = .ok (ndr, ps1) →
      PruneState.init.marked ⊆ ps.marked →
      (planFroms ps).Nodup →
      (∀ x ∈ planFroms ps, x ∈ ps.marked) →
      (planFroms ps1).Nodup ∧ (∀ x ∈ planFroms ps1, x ∈ ps1.marked) := by
  intro cnt
  induction cnt with
  | zero =>
    intro offnum nd ps ndr ps1 hok _ h1 h2
    simp only [prunePageFrom, Except.ok.injEq, Prod.mk.injEq] at hok
    obtain ⟨-, hps1⟩ := hok
    subst hps1
    exact ⟨h1, h2⟩
  | succ n ih =>
    intro offnum nd ps ndr ps1 hok hsub h1 h2
    simp only [prunePageFrom] at hok
    split at hok
    · exact ih _ _ _ _ _ hok hsub h1 h2
    · rename_i hm
      split at hok
      · exact ih _ _ _ _ _ hok hsub h1 h2
      · split at hok
        · exact absurd hok (by simp)
        · rename_i d psc heq
          have hroot : offnum ∉ ps.marked := hm
          have hnd : ((walkLoop ctx page offnum fuel offnum none [] none
              ps).chain.map Prod.fst).Nodup := by
            obtain ⟨t, ht⟩ := walkLoop_marked_prefix ctx page offnum fuel
              offnum none [] none PruneState.init ps hsub
            have hcni := hW offnum
            rw [ht, List.map_append] at hcni
            exact hcni.of_append_left
          obtain ⟨F, hF1, hF2, hF3, hF4, hF5⟩ :=
            heap_prune_chain_froms ctx page offnum fuel ps d psc heq hroot hnd
          have h1c : (planFroms psc).Nodup := by
            rw [hF1, Multiset.nodup_add]
            refine ⟨h1, by simpa using hF2, Multiset.disjoint_left.mpr ?_⟩
            intro a ha haF
            exact hF3 a (by simpa using haF) (h2 a ha)
          have h2c : ∀ x ∈ planFroms psc, x ∈ psc.marked := by
            intro x hx
            rw [hF1] at hx
            rcases Multiset.mem_add.mp hx with hx | hx
            · exact hF4 (h2 x hx)
            · exact hF5 x (by simpa using hx)
          exact ih _ _ _ _ _ hok (hsub.trans hF4) h1c h2c

/-- C8 (amended): within one pruning pass, every slot offset is entered
into the planned-transition arrays as a from-slot at most once and every
recorded from-slot is in the per-pass marked set; marked slots are skipped
by the page scan and stop any later chain walk.  (The original claim is
refuted for the arrays as a whole: a redirect target can be entered again
as a redirect-with-data target, violating the recording Asserts.) -/
theorem C8_from_slots_unique (ctx : PruneCtx) (page : Page)
    (fuel ndr : Nat) (ps1 : PruneState)
    (hok : heap_page_prune ctx page fuel = .ok (ndr, ps1))
    (hW : ∀ r ∈ Finset.Icc 1 page.maxoff,
      ((walkLoop ctx page r fuel r none [] none
        PruneState.init).chain.map Prod.fst).Nodup) :
    ((planFroms ps1).Nodup ∧ ∀ x ∈ planFroms ps1, x ∈ ps1.marked) ∧
    (∀ (cnt off nd : Nat) (ps : PruneState), off ∈ ps.marked →
      prunePageFrom ctx page fuel (cnt + 1) off nd ps =
        prunePageFrom ctx page fuel cnt (off + 1) nd ps) ∧
    (∀ (r f off : Nat) (px : Option Nat) (chain : List (Nat × Bool))
      (ld : Option Nat) (ps : PruneState), off ∈ ps.marked →
      ¬(off < 1 ∨ page.maxoff < off) →
      walkLoop ctx page r (f + 1) off px chain ld ps =
        ⟨chain, ld, ps, .ok⟩) := by
  refine ⟨?_, ?_, ?_⟩
  · have hW2 : ∀ r, ((walkLoop ctx page r fuel r none [] none
        PruneState.init).chain.map Prod.fst).Nodup := by
      intro r
      by_cases hr : r ∈ Finset.Icc 1 page.maxoff
      · exact hW r hr
      · have hout : r < 1 ∨ page.maxoff < r := by
          rw [Finset.mem_Icc] at hr
          omega
        cases fuel with
        | zero => simp [walkLoop]
        | succ n =>
          simp only [walkLoop]
          rw [if_pos hout]
          simp
    unfold heap_page_prune at hok
    exact prunePageFrom_froms ctx page fuel hW2 page.maxoff 1 0
      PruneState.init ndr ps1 hok (Finset.Subset.refl _)
      (by simp [planFroms, PruneState.init])
      (by simp [planFroms, PruneState.init])
  · intro cnt off nd ps hm
    simp only [prunePageFrom]
    rw [if_pos hm]
  · intro r f off px chain ld ps hm hin
    simp only [walkLoop]
    rw [if_neg hin, if_pos hm]

/-- Fixture for the C8 witness: a fully-dead two-member HOT chain. -/
def pageC8w : Page := ⟨[
  .normal (mkTup 5 6 2 false false true false),
  .normal (mkTup 6 0 0 true false false false)]⟩

/-- The deleted count of one pass over the C8 witness page. -/
def ndC8w : Nat :=
  match heap_page_prune ctxAllDead pageC8w 10 with
  | .ok p => p.1
  | .error _ => 0

/-- The prune state planned by one pass over the C8 witness page. -/
def psC8w : PruneState :=
  match heap_page_prune ctxAllDead pageC8w 10 with
  | .ok p => p.2
  | .error _ => PruneState.init

theorem C8_witness :
    (((planFroms psC8w).Nodup ∧ ∀ x ∈ planFroms psC8w, x ∈ psC8w.marked) ∧
    (∀ (cnt off nd : Nat) (ps : PruneState), off ∈ ps.marked →
      prunePageFrom ctxAllDead pageC8w 10 (cnt + 1) off nd ps =
        prunePageFrom ctxAllDead pageC8w 10 cnt (off + 1) nd ps) ∧
    (∀ (r f off : Nat) (px : Option Nat) (chain : List (Nat × Bool))
      (ld : Option Nat) (ps : PruneState), off ∈ ps.marked →
      ¬(off < 1 ∨ pageC8w.maxoff < off) →
      walkLoop ctxAllDead pageC8w r (f + 1) off px chain ld ps =
        ⟨chain, ld, ps, .ok⟩)) :=
  C8_from_slots_unique ctxAllDead pageC8w 10 ndC8w psC8w (by rfl) (by decide)

/-- C8 counterexample to the original claim: on the two-key chain of the C3
fixture, offset 3 is entered twice across the transition arrays — once as
the from-slot of a plain redirect and once as the target of a
redirect-with-data — so the all-arrays multiset holds it with
multiplicity 2 (the C `Assert(!prstate->marked[rdoffnum])` of
`heap_prune_record_redirect_with_data` is violated). -/
theorem C8_counterexample :
    (heap_prune_chain ctxC3x pageC3x 1 10 PruneState.init).toOption.map
        (fun x => (x.2.redirected.map Prod.fst,
          x.2.redirectedData.map (fun e => e.2.1),
          Multiset.count 3 (planEntries x.2))) =
      some ([3], [3], 2) := by rfl

/-- Under an oracle that classifies no in-range tuple of the page as DEAD,
the chain walk never records a latest-dead member. -/
theorem walkLoop_no_dead (ctx : PruneCtx) (page : Page) (rootoff : Nat)
    (hvis : ∀ off htup, 1 ≤ off → off ≤ page.maxoff →
      page.getItem off = .normal htup → ctx.vis htup ≠ 0) :
    ∀ (fuel offnum : Nat) (px : Option Nat) (chain : List (Nat × Bool))
      (ld : Option Nat) (ps : PruneState),
      (walkLoop ctx page rootoff fuel offnum px chain ld ps).latestdead
        = ld := by
  intro fuel
  induction fuel with
  | zero => intro offnum px chain ld ps; rfl
  | succ n ih =>
    intro offnum px chain ld ps
    simp only [walkLoop]
    split
    · rfl
    · split
      · rfl
      · split
        · rfl
        · exact ih _ _ _ _ _
        · rfl
        · split
          · rfl
          · rename_i hrange hnm htup heq hmis
            split
            · rename_i hv
              exact absurd hv (by
                have := hvis offnum htup (by omega) (by omega) heq
                simp [this])
            · split
              · rfl
              · split
                · rfl
                · rfl

/-- One-step equation of the walk at an in-range, unmarked redirect line
pointer that is not the chain root and not the second-or-later member of a
remembered chain: follow the link, appending the member. -/
theorem walkLoop_step_redirect (ctx : PruneCtx) (page : Page)
    (rootoff n offnum : Nat) (px : Option Nat) (chain : List (Nat × Bool))
    (ld : Option Nat) (ps : PruneState) (t : Nat) (rd : Option RedirectData)
    (hin : ¬(offnum < 1 ∨ page.maxoff < offnum)) (hm : offnum ∉ ps.marked)
    (hti : page.getItem offnum = .redirect t rd) :
    walkLoop ctx page rootoff (n + 1) offnum px chain ld ps =
      walkLoop ctx page rootoff n t px
        (chain ++ [(offnum,
          if offnum = rootoff then
            ItemIdIsPartialHotRedirected (page.getItem offnum)
          else if 2 ≤ chain.length then
            ItemIdIsPartialHotRedirected
              (page.getItem (chain.getD (chain.length - 2) (0, false)).1)
          else ctx.oobPhot)]) ld ps := by
  simp only [walkLoop]
  rw [if_neg hin, if_neg hm, hti]

/-- One-step equation of the walk at an in-range, unmarked normal tuple
with no recorded prior xmax: classify it and branch on the verdict. -/
theorem walkLoop_step_normal (ctx : PruneCtx) (page : Page)
    (rootoff n offnum : Nat) (chain : List (Nat × Bool))
    (ld : Option Nat) (ps : PruneState) (htup : HeapTupleHeaderData)
    (hin : ¬(offnum < 1 ∨ page.maxoff < offnum)) (hm : offnum ∉ ps.marked)
    (hti : page.getItem offnum = .normal htup) :
    walkLoop ctx page rootoff (n + 1) offnum none chain ld ps =
      (if ctx.vis htup = 0 then
        if !htup.hotUpdated && !htup.partialHotUpdated then
          ⟨chain ++ [(offnum, htup.partialHeapOnly ||
            (!htup.heapOnly && htup.partialHotUpdated))], some offnum, ps,
            .ok⟩
        else
          walkLoop ctx page rootoff n htup.ctid (some htup.xmax)
            (chain ++ [(offnum, htup.partialHeapOnly ||
              (!htup.heapOnly && htup.partialHotUpdated))]) (some offnum) ps
      else if ctx.vis htup = 2 ∨ ctx.vis htup = 4 then
        ⟨chain ++ [(offnum, htup.partialHeapOnly ||
          (!htup.heapOnly && htup.partialHotUpdated))], ld,
          heap_prune_record_prunable ps htup.xmax, .ok⟩
      else if ctx.vis htup = 1 ∨ ctx.vis htup = 3 then
        ⟨chain ++ [(offnum, htup.partialHeapOnly ||
          (!htup.heapOnly && htup.partialHotUpdated))], ld, ps, .ok⟩
      else
        ⟨chain ++ [(offnum, htup.partialHeapOnly ||
          (!htup.heapOnly && htup.partialHotUpdated))], ld, ps,
          .oracleErr⟩) := by
  simp only [walkLoop]
  rw [if_neg hin, if_neg hm, hti]
  simp

/-- A chain walk rooted at an in-range, unmarked redirect line pointer
whose target is in range and neither unused nor dead collects at least two
members whenever it terminates normally. -/
theorem walkLoop_redirect_min2 (ctx : PruneCtx) (page : Page)
    (fuel r t : Nat) (rd : Option RedirectData) (ps : PruneState)
    (hr1 : 1 ≤ r) (hr2 : r ≤ page.maxoff)
    (hlp : page.getItem r = .redirect t rd)
    (hm : ps.marked = ∅)
    (ht1 : 1 ≤ t) (ht2 : t ≤ page.maxoff)
    (htu : page.getItem t ≠ .unused) (htd : page.getItem t ≠ .dead)
    (hok : (walkLoop ctx page r fuel r none [] none ps).status = .ok) :
    2 ≤ (walkLoop ctx page r fuel r none [] none ps).chain.length := by
  match fuel with
  | 0 => exact absurd hok (by simp [walkLoop])
  | n + 1 =>
    rw [walkLoop_step_redirect ctx page r n r none [] none ps t rd
      (by omega) (by simp [hm]) hlp] at hok ⊢
    match n with
    | 0 => exact absurd hok (by simp [walkLoop])
    | n2 + 1 =>
      rcases hti : page.getItem t with _ | htup | ⟨t2, rd2⟩ | _
      · exact absurd hti htu
      · rw [walkLoop_step_normal ctx page r n2 t _ none ps htup (by omega)
          (by simp [hm]) hti] at hok ⊢
        split
        · split
          · simp
          · refine le_trans ?_ (walkLoop_chain_le ctx page r n2 _ _ _ _ _)
            simp
        · split
          · simp
          · split
            · simp
            · simp
      · rw [walkLoop_step_redirect ctx page r n2 t none _ none ps t2 rd2
          (by omega) (by simp [hm]) hti] at hok ⊢
        refine le_trans ?_ (walkLoop_chain_le ctx page r n2 _ _ _ _ _)
        simp
      · exact absurd hti htd

/-- On a page whose in-range tuples are never classified DEAD and whose
redirects all point at in-range, used, non-dead slots, one chain call from
an unmarked state records no transition and deletes nothing. -/
theorem heap_prune_chain_zero (ctx : PruneCtx) (page : Page)
    (r fuel : Nat) (ps : PruneState) (nd : Nat) (ps1 : PruneState)
    (hvis : ∀ off htup, 1 ≤ off → off ≤ page.maxoff →
      page.getItem off = .normal htup → ctx.vis htup ≠ 0)
    (hred : ∀ off t rd, 1 ≤ off → off ≤ page.maxoff →
      page.getItem off = .redirect t rd →
      1 ≤ t ∧ t ≤ page.maxoff ∧
        page.getItem t ≠ .unused ∧ page.getItem t ≠ .dead)
    (hr1 : 1 ≤ r) (hr2 : r ≤ page.maxoff)
    (hm : ps.marked = ∅)
    (hok : heap_prune_chain ctx page r fuel ps = .ok (nd, ps1)) :
    nd = 0 ∧ ps1.redirected = ps.redirected ∧
      ps1.redirectedData = ps.redirectedData ∧
      ps1.nowdead = ps.nowdead ∧ ps1.nowunused = ps.nowunused ∧
      ps1.marked = ps.marked := by
  have hpf := walkLoop_ps_fields ctx page r fuel r none [] none ps
  have hld := walkLoop_no_dead ctx page r hvis fuel r none [] none ps
  unfold heap_prune_chain at hok
  simp only [] at hok
  split at hok
  · rename_i htup heq
    split at hok
    · split at hok
      · rename_i hdead
        exfalso
        simp only [Bool.and_eq_true, decide_eq_true_eq] at hdead
        exact hvis r htup hr1 hr2 heq hdead.1.1
      · simp only [Except.ok.injEq, Prod.mk.injEq] at hok
        obtain ⟨hnd, hps1⟩ := hok
        subst hps1
        exact ⟨hnd.symm, rfl, rfl, rfl, rfl, rfl⟩
    · rcases hst : (walkLoop ctx page r fuel r none [] none ps).status with
        _ | _ | _
      · simp only [hst, hld] at hok
        split at hok
        · rename_i hcond
          rw [heq] at hcond
          simp [ItemIdIsRedirected] at hcond
        · simp only [Except.ok.injEq, Prod.mk.injEq] at hok
          obtain ⟨hnd, hps1⟩ := hok
          subst hps1
          exact ⟨hnd.symm, hpf.1, hpf.2.1, hpf.2.2.1, hpf.2.2.2.1,
            hpf.2.2.2.2⟩
      · simp only [hst] at hok
        exact absurd hok (by simp)
      · simp only [hst] at hok
        exact absurd hok (by simp)
  · rcases hst : (walkLoop ctx page r fuel r none [] none ps).status with
      _ | _ | _
    · simp only [hst, hld] at hok
      split at hok
      · rename_i hcond
        exfalso
        rcases hti : page.getItem r with _ | htup | ⟨t, rd⟩ | _ <;>
          rw [hti] at hcond
        · simp [ItemIdIsRedirected] at hcond
        · simp [ItemIdIsRedirected] at hcond
        · obtain ⟨ht1, ht2, htu, htd⟩ := hred r t rd hr1 hr2 hti
          have h2 := walkLoop_redirect_min2 ctx page fuel r t rd ps hr1
            hr2 hti hm ht1 ht2 htu htd hst
          omega
        · simp [ItemIdIsRedirected] at hcond
      · simp only [Except.ok.injEq, Prod.mk.injEq] at hok
        obtain ⟨hnd, hps1⟩ := hok
        subst hps1
        exact ⟨hnd.symm, hpf.1, hpf.2.1, hpf.2.2.1, hpf.2.2.2.1,
          hpf.2.2.2.2⟩
    · simp only [hst] at hok
      exact absurd hok (by simp)
    · simp only [hst] at hok
      exact absurd hok (by simp)

/-- The page scan under a no-dead, valid-redirect page from an unmarked
state: the plan stays empty and the count does not grow. -/
theorem prunePageFrom_zero (ctx : PruneCtx) (page : Page) (fuel : Nat)
    (hvis : ∀ off htup, 1 ≤ off → off ≤ page.maxoff →
      page.getItem off = .normal htup → ctx.vis htup ≠ 0)
    (hred : ∀ off t rd, 1 ≤ off → off ≤ page.maxoff →
      page.getItem off = .redirect t rd →
      1 ≤ t ∧ t ≤ page.maxoff ∧
        page.getItem t ≠ .unused ∧ page.getItem t ≠ .dead) :
    ∀ (cnt offnum nd : Nat) (ps : PruneState) (ndr : Nat) (ps1 : PruneState),
      1 ≤ offnum → offnum + cnt ≤ page.maxoff + 1 →
      ps.marked = ∅ →
      prunePageFrom ctx page fuel cnt offnum nd ps = .ok (ndr, ps1) →
      ndr = nd ∧ ps1.redirected = ps.redirected ∧
        ps1.redirectedData = ps.redirectedData ∧
        ps1.nowdead = ps.nowdead ∧ ps1.nowunused = ps.nowunused ∧
        ps1.marked = ps.marked := by
  intro cnt
  induction cnt with
  | zero =>
    intro offnum nd ps ndr ps1 h1 h2 hm hok
    simp only [prunePageFrom, Except.ok.injEq, Prod.mk.injEq] at hok
    obtain ⟨hnd, hps1⟩ := hok
    subst hps1
    exact ⟨hnd.symm, rfl, rfl, rfl, rfl, rfl⟩
  | succ n ih =>
    intro offnum nd ps ndr ps1 h1 h2 hm hok
    simp only [prunePageFrom] at hok
    split at hok
    · exact ih _ _ _ _ _ (by omega) (by omega) hm hok
    · split at hok
      · exact ih _ _ _ _ _ (by omega) (by omega) hm hok
      · split at hok
        · exact absurd hok (by simp)
        · rename_i d psc heq
          obtain ⟨hd, hc1, hc2, hc3, hc4, hc5⟩ := heap_prune_chain_zero ctx
            page offnum fuel ps d psc hvis hred h1 (by omega) hm heq
          obtain ⟨hnd, hp1, hp2, hp3, hp4, hp5⟩ := ih _ _ _ _ _ (by omega)
            (by omega) (hc5.trans hm) hok
          subst hd
          exact ⟨by omega, hp1.trans hc1, hp2.trans hc2, hp3.trans hc3,
            hp4.trans hc4, hp5.trans hc5⟩

/-- Per-slot cleanliness: a normal tuple is not classified DEAD; a redirect
points at an in-range slot that is neither unused nor dead. -/
def slotClean (ctx : PruneCtx) (page : Page) (off : Nat) : Bool :=
  match page.getItem off with
  | .normal htup => ctx.vis htup != 0
  | .redirect t _ => decide (1 ≤ t) && decide (t ≤ page.maxoff) &&
      !(decide (page.getItem t = .unused)) &&
      !(decide (page.getItem t = .dead))
  | _ => true

/-- C5 (amended): pruning has zero work to do exactly on already-clean
pages.  One pass over a page whose every in-range slot is clean — no
normal tuple classified DEAD by the oracle and no redirect to an
out-of-range, unused or dead slot — plans zero transitions of any kind and
reports zero deleted tuples.  (The unrestricted idempotence of the
original claim is false: executing a first pass can leave a dangling
redirect behind, which the immediately following pass then plans to kill —
see the counterexample.) -/
theorem C5_clean_page_zero_plan (ctx : PruneCtx) (page : Page)
    (fuel ndr : Nat) (ps1 : PruneState)
    (hclean : ∀ off ∈ Finset.Icc 1 page.maxoff,
      slotClean ctx page off = true)
    (hok : heap_page_prune ctx page fuel = .ok (ndr, ps1)) :
    ndr = 0 ∧ ps1.redirected = [] ∧ ps1.redirectedData = [] ∧
      ps1.nowdead = [] ∧ ps1.nowunused = [] := by
  have hvis : ∀ off htup, 1 ≤ off → off ≤ page.maxoff →
      page.getItem off = .normal htup → ctx.vis htup ≠ 0 := by
    intro off htup hx1 hx2 heq
    have hc := hclean off (Finset.mem_Icc.mpr ⟨hx1, hx2⟩)
    rw [slotClean, heq] at hc
    simpa using hc
  have hred : ∀ off t rd, 1 ≤ off → off ≤ page.maxoff →
      page.getItem off = .redirect t rd →
      1 ≤ t ∧ t ≤ page.maxoff ∧
        page.getItem t ≠ .unused ∧ page.getItem t ≠ .dead := by
    intro off t rd hx1 hx2 heq
    have hc := hclean off (Finset.mem_Icc.mpr ⟨hx1, hx2⟩)
    rw [slotClean, heq] at hc
    simp only [Bool.and_eq_true, Bool.not_eq_true', decide_eq_true_eq,
      decide_eq_false_iff_not] at hc
    exact ⟨hc.1.1.1, hc.1.1.2, hc.1.2, hc.2⟩
  unfold heap_page_prune at hok
  have hz := prunePageFrom_zero ctx page fuel hvis hred page.maxoff 1 0
    PruneState.init ndr ps1 (by omega) (by omega) rfl hok
  exact ⟨hz.1, hz.2.1, hz.2.2.1, hz.2.2.2.1, hz.2.2.2.2.1⟩


/-- Counterexample page for C5: a HOT root, two stacked redirects and a
live tail.  The first pass redirects the root and kills one dangling
redirect; its execution leaves the other redirect dangling, so the second
pass plans a further transition. -/
def pageC5x : Page := ⟨[
  .normal (mkTup 1 10 4 false false true false),
  .redirect 3 none,
  .redirect 4 none,
  .normal (mkTup 10 0 0 true false false false)]⟩

/-- Oracle for the C5 counterexample: only xmin-10 tuples are live. -/
def ctxC5x : PruneCtx :=
  ⟨fun t => if t.xmin == 10 then 1 else 0, fun _ _ => ∅, 2, false⟩

/-- C5 counterexample to the original claim: the first pass over `pageC5x`
plans dead = [3] and redirected = [(1, 4)]; running a second pass on the
executed page plans dead = [2] — one more transition, not zero, so
pruning is not idempotent in general. -/
theorem C5_counterexample :
    (heap_page_prune ctxC5x pageC5x 10).toOption.map
        (fun x => (x.1, x.2.nowdead, x.2.nowunused, x.2.redirected,
          x.2.redirectedData)) = some (1, [3], [], [(1, 4)], []) ∧
    ((heap_page_prune ctxC5x pageC5x 10).toOption.map
        (fun x => (heap_page_prune ctxC5x
            (heap_page_prune_execute pageC5x x.2) 10).toOption.map
          (fun y => (y.1, y.2.nowdead, y.2.nowunused, y.2.redirected,
            y.2.redirectedData)))) = some (some (0, [2], [], [], [])) ∧
    ([2] : List Nat) ≠ [] := ⟨rfl, rfl, by decide⟩

/-- Witness page for C5 (amended): a redirect onto a live heap-only tuple. -/
def pageC5w : Page := ⟨[
  .redirect 2 none,
  .normal (mkTup 7 0 0 true false false false)]⟩

/-- Oracle for the C5 witness: everything is LIVE. -/
def ctxC5w : PruneCtx := ⟨fun _ => 1, fun _ _ => ∅, 2, false⟩

/-- The deleted count of one pass over the C5 witness page. -/
def ndC5w : Nat :=
  match heap_page_prune ctxC5w pageC5w 10 with
  | .ok p => p.1
  | .error _ => 1

/-- The prune state planned by one pass over the C5 witness page. -/
def psC5w : PruneState :=
  match heap_page_prune ctxC5w pageC5w 10 with
  | .ok p => p.2
  | .error _ => PruneState.init

theorem C5_witness :
    ndC5w = 0 ∧ psC5w.redirected = [] ∧ psC5w.redirectedData = [] ∧
      psC5w.nowdead = [] ∧ psC5w.nowunused = [] :=
  C5_clean_page_zero_plan ctxC5w pageC5w 10 ndC5w psC5w (by decide) (by rfl)
